import Mathlib

/-!
# Matrix rain animation (matrix.c / matrix.h): shallow embedding

The drop simulator (`init_single_drop`, `matrix_update_positions`), the
rasterizer (`matrix_draw`) and the lifecycle functions (`matrix_init`,
`matrix_start`, `matrix_stop`, `matrix_animation_work_handler`) of
`src/matrix.c`, as pure functions with explicit state passing.

Machine integers are `Nat` / `Int` with explicit wrap-around:
`uint32_t` values are reduced modulo `2^32`, `uint8_t` values modulo `2^8`,
and a conversion to `int16_t` keeps the low 16 bits, read as two's complement.
C integer division truncates towards zero (`Int.tdiv`).
-/

namespace Matrix

/-! ## Configuration (matrix.h, matrix.c) -/

/-- Grid width, `#define MATRIX_WIDTH 68`. -/
def MATRIX_WIDTH : Nat := 68
/-- Grid height, `#define MATRIX_HEIGHT 160`. -/
def MATRIX_HEIGHT : Nat := 160
/-- Number of drops, `#define MATRIX_MAX_DROPS 200`. -/
def MATRIX_MAX_DROPS : Nat := 200
/-- Frame delay in milliseconds, `#define MATRIX_FRAME_DELAY_MS 50`. -/
def MATRIX_FRAME_DELAY_MS : Nat := 50
/-- Shortest trail, `#define MATRIX_MIN_TRAIL_LENGTH 5`. -/
def MATRIX_MIN_TRAIL_LENGTH : Nat := 5
/-- Longest trail, `#define MATRIX_MAX_TRAIL_LENGTH 40`. -/
def MATRIX_MAX_TRAIL_LENGTH : Nat := 40
/-- Fixed point scaling factor, `#define FIXED_POINT_SCALE 16`. -/
def FIXED_POINT_SCALE : Nat := 16

/-! ## Machine integers -/

/-- Conversion of an integer value to `int16_t`: the low 16 bits, two's complement. -/
def toInt16 (v : Int) : Int := (v + 32768) % 65536 - 32768

/-- Conversion of a value to `uint8_t`. -/
def toUInt8 (v : Nat) : Nat := v % 256

/-- Conversion of a value to `uint32_t`. -/
def toUInt32 (v : Nat) : Nat := v % 4294967296

/-- Membership of the `int16_t` range. -/
def isInt16 (v : Int) : Prop := -32768 ≤ v ∧ v ≤ 32767

instance (v : Int) : Decidable (isInt16 v) := by
  unfold isInt16; exact inferInstance

/-! ## Data model (matrix.h) -/

/-- Drop state, `matrix_drop_t`: `x`, `y` are `int16_t` fixed point values with
4 fractional bits; `speed`, `bright`, `length` are `uint8_t`. -/
structure matrix_drop_t where
  x : Int
  y : Int
  speed : Nat
  bright : Nat
  length : Nat
  deriving DecidableEq, Repr, Inhabited

/-- The fields of a drop are within the ranges of their C types. -/
def matrix_drop_t.inRange (d : matrix_drop_t) : Prop :=
  isInt16 d.x ∧ isInt16 d.y ∧ d.speed < 256 ∧ d.bright < 256 ∧ d.length < 256

instance (d : matrix_drop_t) : Decidable d.inRange := by
  unfold matrix_drop_t.inRange; exact inferInstance

/-- A colour value `lv_color_t`, as its 24 bit RGB code; the all-zero value that
`memset` leaves is `0`. -/
abbrev lv_color_t := Nat

/-- Modelled from the spec: `lv_color_hex` of LVGL, the colour of an RGB code. -/
def lv_color_hex (c : Nat) : lv_color_t := c % 16777216

/-- Modelled from the spec: `lv_color_white` of LVGL, the brightest tier. -/
def lv_color_white : lv_color_t := lv_color_hex 0xFFFFFF

/-- Modelled from the spec: an LVGL canvas object `lv_obj_t`, identified by `id`,
with the pixel buffer assigned to it (`none` when no buffer was set). -/
structure lv_obj_t where
  id : Nat
  buf : Option (List lv_color_t)
  deriving DecidableEq, Repr

/-- Modelled from the spec: `lv_canvas_get_buf` of LVGL, the buffer of a canvas
or `NULL`. -/
def lv_canvas_get_buf (canvas : lv_obj_t) : Option (List lv_color_t) := canvas.buf

/-- Modelled from the spec: the work item `struct k_work_delayable` of the
scheduler, a one-slot scheduler: `pending` is the delay in milliseconds of the
scheduled tick, `none` when no tick is scheduled; `handler_set` records that
`k_work_init_delayable` bound the handler. -/
structure k_work_delayable where
  handler_set : Bool
  pending : Option Nat
  deriving DecidableEq, Repr

/-- Modelled from the spec: `k_work_init_delayable`, binds the handler; nothing
is scheduled. -/
def k_work_init_delayable (_w : k_work_delayable) : k_work_delayable :=
  { handler_set := true, pending := none }

/-- Modelled from the spec: `k_work_reschedule`, (re)schedules the single tick
after `delay_ms` milliseconds, replacing a pending one. -/
def k_work_reschedule (w : k_work_delayable) (delay_ms : Nat) : k_work_delayable :=
  { w with pending := some delay_ms }

/-- Modelled from the spec: `k_work_cancel_delayable`, cancels the pending tick. -/
def k_work_cancel_delayable (w : k_work_delayable) : k_work_delayable :=
  { w with pending := none }

/-- Zero delay, `K_NO_WAIT`. -/
def K_NO_WAIT : Nat := 0

/-- Animation state, `matrix_anim_t`. `canvas` is the canvas pointer (the id of
the canvas object, `none` for `NULL`); `canvas_buf` is the pointer to the pixel
buffer (`none` for `NULL`), represented by the content of the memory it points
to, row-major, one `lv_color_t` per pixel. It is the buffer of the canvas
(`lv_canvas_get_buf`), so the pixel writes through the canvas land in it.
`drops` is the array `drops[MATRIX_MAX_DROPS]`. -/
structure matrix_anim_t where
  canvas : Option Nat
  canvas_buf : Option (List lv_color_t)
  drops : List matrix_drop_t
  animation_work : k_work_delayable
  active : Bool
  deriving DecidableEq, Repr

/-! ## Random source -/

/-- The random source: the sequence of values that successive calls of
`sys_rand32_get` return. -/
abbrev Rand := Nat → Nat

/-- The random source after `k` more calls. -/
def Rand.skip (k : Nat) (s : Rand) : Rand := fun n => s (n + k)

/-- Modelled from the spec: `sys_rand32_get`, the next 32 bit value of the random
source, and the source after the call. -/
def sys_rand32_get (s : Rand) : Nat × Rand := (toUInt32 (s 0), Rand.skip 1 s)

/-- Random number in a range, `rand_range`, in `uint32_t` arithmetic. -/
def rand_range (min max : Nat) (s : Rand) : Nat × Rand :=
  if max < min then (min, s)
  else
    let range := toUInt32 (max - min + 1)
    let r := sys_rand32_get s
    (toUInt32 (r.1 % range + min), r.2)

/-! ## Drop simulator -/

/-- Initialise a single drop, `init_single_drop`. The products are computed in
`uint32_t` (the negation of `y` included) and stored into `int16_t` fields;
`speed`, `bright` and `length` are stored into `uint8_t` fields. -/
def init_single_drop (_drop : matrix_drop_t) (s : Rand) : matrix_drop_t × Rand :=
  let rx := rand_range 0 (MATRIX_WIDTH - 1) s
  let x := toInt16 (toUInt32 (rx.1 * FIXED_POINT_SCALE))
  let ry := rand_range 0 (MATRIX_HEIGHT / 2) rx.2
  let y := toInt16 (toUInt32 (toUInt32 (4294967296 - ry.1) * FIXED_POINT_SCALE))
  let rs := rand_range (1 * FIXED_POINT_SCALE / 2) (2 * FIXED_POINT_SCALE / 2) ry.2
  let rb := rand_range 1 3 rs.2
  let rl := rand_range MATRIX_MIN_TRAIL_LENGTH MATRIX_MAX_TRAIL_LENGTH rb.2
  ({ x := x, y := y, speed := toUInt8 rs.1, bright := toUInt8 rb.1,
     length := toUInt8 rl.1 }, rl.2)

/-- The recycling test of `matrix_update_positions`,
`(drop->y / FIXED_POINT_SCALE - drop->length) > MATRIX_HEIGHT`, in `int`. -/
def off_screen_below (drop : matrix_drop_t) : Bool :=
  decide (Int.tdiv drop.y FIXED_POINT_SCALE - drop.length > MATRIX_HEIGHT)

/-- The body of the loop of `matrix_update_positions` for one drop:
`drop->y += drop->speed` (computed in `int`, stored into `int16_t`), then the
reset of a drop that is off-screen below. -/
def update_drop (drop : matrix_drop_t) (s : Rand) : matrix_drop_t × Rand :=
  let moved : matrix_drop_t := { drop with y := toInt16 (drop.y + drop.speed) }
  if off_screen_below moved then init_single_drop moved s else (moved, s)

/-- The loop `for (int i = 0; i < MATRIX_MAX_DROPS; i++)` over `&anim->drops[i]`,
with a body that updates the drop from the random source. -/
def for_each_drop (body : matrix_drop_t → Rand → matrix_drop_t × Rand)
    (drops : List matrix_drop_t) (s : Rand) : List matrix_drop_t × Rand :=
  (List.range MATRIX_MAX_DROPS).foldl
    (fun (st : List matrix_drop_t × Rand) i =>
      match st.1[i]? with
      | some drop => let r := body drop st.2; (st.1.set i r.1, r.2)
      | none => st)
    (drops, s)

/-- Update drop positions and reset if needed, `matrix_update_positions`. -/
def matrix_update_positions (anim : matrix_anim_t) (s : Rand) : matrix_anim_t × Rand :=
  let r := for_each_drop update_drop anim.drops s
  ({ anim with drops := r.1 }, r.2)

/-! ## Rasterizer -/

/-- The fade level of a trail pixel, `((len - trail_idx) * 255) / len` computed in
`int` and stored into a `uint8_t`; in the loop `trail_idx < len`. -/
def fade_level (len trail_idx : Nat) : Nat :=
  toUInt8 (((len - trail_idx) * 255) / len)

/-- The colour of a fade level: the three brightness tiers of `matrix_draw`. -/
def fade_color (fade : Nat) : lv_color_t :=
  if fade > 170 then lv_color_white
  else if fade > 85 then lv_color_hex 0xAAAAAA
  else lv_color_hex 0x555555

/-- One call `lv_canvas_set_px_color(canvas, x, y, color)`. -/
structure px_write where
  x : Int
  y : Int
  color : lv_color_t
  deriving DecidableEq, Repr

/-- The bounds check of `matrix_draw`,
`x >= 0 && x < MATRIX_WIDTH && y >= 0 && y < MATRIX_HEIGHT`. -/
def in_bounds (x y : Int) : Bool :=
  decide (0 ≤ x) && decide (x < MATRIX_WIDTH) && decide (0 ≤ y) && decide (y < MATRIX_HEIGHT)

/-- The pixel writes that the body of the drop loop of `matrix_draw` issues for one
drop, in program order: the trail loop over `trail_idx`, then the head. -/
def drop_writes (drop : matrix_drop_t) : List px_write :=
  let x_int := toInt16 (Int.tdiv drop.x FIXED_POINT_SCALE)
  let y_int := toInt16 (Int.tdiv drop.y FIXED_POINT_SCALE)
  let len := drop.length
  let trail := (List.range len).filterMap (fun (trail_idx : Nat) =>
    let trail_y := toInt16 (y_int - trail_idx)
    if in_bounds x_int trail_y then
      some { x := x_int, y := trail_y, color := fade_color (fade_level len trail_idx) }
    else none)
  let head := if in_bounds x_int y_int then
      [{ x := x_int, y := y_int, color := lv_color_white : px_write }]
    else []
  trail ++ head

/-- The pixel writes of the whole drop loop of `matrix_draw`,
`for (int i = 0; i < MATRIX_MAX_DROPS; i++)`, in program order. -/
def draw_writes (drops : List matrix_drop_t) : List px_write :=
  (List.range MATRIX_MAX_DROPS).foldl
    (fun (acc : List px_write) i =>
      match drops[i]? with
      | some drop => acc ++ drop_writes drop
      | none => acc)
    []

/-- The clear of `matrix_draw`,
`memset(buf, 0, sizeof(lv_color_t) * MATRIX_WIDTH * MATRIX_HEIGHT)`: the first
`MATRIX_WIDTH * MATRIX_HEIGHT` elements become zero. -/
def memset_frame (buf : List lv_color_t) : List lv_color_t :=
  List.replicate (min (MATRIX_WIDTH * MATRIX_HEIGHT) buf.length) 0
    ++ buf.drop (MATRIX_WIDTH * MATRIX_HEIGHT)

/-- Modelled from the spec: `lv_canvas_set_px_color` of LVGL on the pixel buffer of
the canvas: the pixel in column `x` of row `y` takes the colour. A write outside
the grid is not modelled (the buffer is returned as it is). -/
def lv_canvas_set_px_color (buf : List lv_color_t) (w : px_write) : List lv_color_t :=
  if in_bounds w.x w.y then buf.set (w.y * MATRIX_WIDTH + w.x).toNat w.color else buf

/-- The pixel in column `c` of row `r` of a buffer. -/
def get_px (buf : List lv_color_t) (c r : Nat) : lv_color_t :=
  buf.getD (r * MATRIX_WIDTH + c) 0

/-- The pixel writes that `matrix_draw` issues: none when the canvas or the
buffer is unbound (early return), else those of the drop loop. -/
def matrix_draw_calls (anim : matrix_anim_t) : List px_write :=
  match anim.canvas, anim.canvas_buf with
  | some _, some _ => draw_writes anim.drops
  | _, _ => []

/-- Draw the matrix effect, `matrix_draw`: return at once when the canvas or the
buffer is unbound, else clear the frame and execute the pixel writes in order. -/
def matrix_draw (anim : matrix_anim_t) : matrix_anim_t :=
  match anim.canvas, anim.canvas_buf with
  | some _, some buf =>
    let cleared := memset_frame buf
    let drawn := (draw_writes anim.drops).foldl lv_canvas_set_px_color cleared
    { anim with canvas_buf := some drawn }
  | _, _ => anim

/-! ## Lifecycle -/

/-- Work handler, `matrix_animation_work_handler`: nothing when inactive or when
the canvas is unbound; else update, draw, reschedule. -/
def matrix_animation_work_handler (anim : matrix_anim_t) (s : Rand) : matrix_anim_t × Rand :=
  if !anim.active || anim.canvas.isNone then (anim, s)
  else
    let r := matrix_update_positions anim s
    let drawn := matrix_draw r.1
    ({ drawn with animation_work :=
        k_work_reschedule drawn.animation_work MATRIX_FRAME_DELAY_MS }, r.2)

/-- Initialise the animation, `matrix_init(anim, canvas)`; `canvas = none` is the
`NULL` canvas. -/
def matrix_init (anim : matrix_anim_t) (canvas : Option lv_obj_t) (s : Rand) :
    matrix_anim_t × Rand :=
  match canvas with
  | none => (anim, s)
  | some cv =>
    let anim1 : matrix_anim_t :=
      { anim with canvas := some cv.id, active := false, canvas_buf := lv_canvas_get_buf cv }
    match anim1.canvas_buf with
    | none => (anim1, s)
    | some _ =>
      let r := for_each_drop init_single_drop anim1.drops s
      ({ anim1 with drops := r.1,
                    animation_work := k_work_init_delayable anim1.animation_work }, r.2)

/-- Start the animation, `matrix_start`. -/
def matrix_start (anim : matrix_anim_t) : matrix_anim_t :=
  if anim.canvas.isNone then anim
  else if anim.active then anim
  else { anim with active := true,
                   animation_work := k_work_reschedule anim.animation_work K_NO_WAIT }

/-- Stop the animation, `matrix_stop`. -/
def matrix_stop (anim : matrix_anim_t) : matrix_anim_t :=
  if !anim.active then anim
  else { anim with active := false,
                   animation_work := k_work_cancel_delayable anim.animation_work }


/-! ## The loops as recursions over the array -/


/-- The drop loop as a recursion over the array elements. -/
def map_drops (body : matrix_drop_t → Rand → matrix_drop_t × Rand) :
    List matrix_drop_t → Rand → List matrix_drop_t × Rand
  | [], s => ([], s)
  | d :: ds, s =>
    let r := body d s
    let rs := map_drops body ds r.2
    (r.1 :: rs.1, rs.2)

/-- The pixel writes of the drop loop of `matrix_draw` as a recursion over the array
elements. -/
def writes_of : List matrix_drop_t → List px_write
  | [] => []
  | d :: ds => drop_writes d ++ writes_of ds

/-! ## Ranges of a freshly initialised drop -/

/-- The ranges of a drop that `init_single_drop` has just initialised: `x = 16 * k`
with `k` in `[0, MATRIX_WIDTH - 1]`, `y = -16 * m` with `m` in
`[0, MATRIX_HEIGHT / 2]`, `speed` in `[8, 16]`, `bright` in `[1, 3]`, `length` in
`[MATRIX_MIN_TRAIL_LENGTH, MATRIX_MAX_TRAIL_LENGTH]`. -/
def fresh_drop (d : matrix_drop_t) : Prop :=
  (∃ k : Nat, k ≤ MATRIX_WIDTH - 1 ∧ d.x = 16 * (k : Int)) ∧
  (∃ m : Nat, m ≤ MATRIX_HEIGHT / 2 ∧ d.y = -(16 * (m : Int))) ∧
  (8 ≤ d.speed ∧ d.speed ≤ 16) ∧
  (1 ≤ d.bright ∧ d.bright ≤ 3) ∧
  (MATRIX_MIN_TRAIL_LENGTH ≤ d.length ∧ d.length ≤ MATRIX_MAX_TRAIL_LENGTH)

/-! ## Example states -/

/-- An animation state before initialisation: nothing bound, 200 zeroed drops. -/
def example_anim : matrix_anim_t :=
  { canvas := none, canvas_buf := none, drops := List.replicate 200 default,
    animation_work := { handler_set := false, pending := none }, active := false }

/-- A canvas with a pixel buffer of `68 * 160` elements, all of value 7. -/
def example_canvas : lv_obj_t := { id := 1, buf := some (List.replicate 10880 7) }

/-- A random source. -/
def example_rand : Rand := fun n => n * 2654435761 + 12345

/-- A drop in lane 10 with head row 50 and a trail of 10 pixels. -/
def example_drop : matrix_drop_t := { x := 160, y := 800, speed := 8, bright := 1, length := 10 }

/-- A drop that waits above the screen, in no row of the grid. -/
def hidden_drop : matrix_drop_t := { x := 0, y := -1280, speed := 8, bright := 1, length := 5 }

/-- A drop whose head row is `MATRIX_HEIGHT + length + 1 = 171`. -/
def low_drop : matrix_drop_t := { x := 160, y := 2739, speed := 8, bright := 1, length := 10 }

/-- A running animation: canvas and buffer bound, the example drop, a drop below
the screen and 198 hidden drops. -/
def example_running : matrix_anim_t :=
  { canvas := some 1, canvas_buf := some (List.replicate 10880 7),
    drops := example_drop :: low_drop :: List.replicate 198 hidden_drop,
    animation_work := { handler_set := true, pending := none }, active := true }

/-! ## Coverage of a grid pixel by a drop -/

/-- The head column `x / 16` of a drop, in C division. -/
def head_col (d : matrix_drop_t) : Int := Int.tdiv d.x 16

/-- The head row `y / 16` of a drop, in C division. -/
def head_row (d : matrix_drop_t) : Int := Int.tdiv d.y 16

/-- The grid pixel `(c, r)` is covered by the drop: `c` is the head column and `r` is
the head row or a row of the trail, `hy - length < r ≤ hy`. -/
def covers (d : matrix_drop_t) (c r : Nat) : Prop :=
  (c : Int) = head_col d ∧
    ((r : Int) = head_row d ∨ (head_row d - d.length < r ∧ (r : Int) ≤ head_row d))

instance (d : matrix_drop_t) (c r : Nat) : Decidable (covers d c r) := by
  unfold covers; exact inferInstance

/-- The colour that a drop gives a pixel it covers in row `r`: white in the head row,
else the tier of `fade = ((length - (hy - r)) * 255) / length`. -/
def covered_color (d : matrix_drop_t) (r : Nat) : lv_color_t :=
  if (r : Int) = head_row d then lv_color_white
  else fade_color ((((d.length : Int) - (head_row d - r)) * 255) / d.length).toNat

/-- The scenario: canvas and buffer bound, one drop in lane 10 with head row 50 and
trail length 10, the 199 other drops hidden above the screen. -/
def example_scene : matrix_anim_t :=
  { canvas := some 1, canvas_buf := some (List.replicate 10880 7),
    drops := example_drop :: List.replicate 199 hidden_drop,
    animation_work := { handler_set := true, pending := none }, active := true }

/-! ## Reachable states -/

/-- The states reachable from a successful `matrix_init` (a state of 200 drops, a
canvas with a buffer) by `matrix_start`, `matrix_stop` and executions of the tick
handler, the random source being arbitrary at every step. -/
inductive Reachable : matrix_anim_t → Prop
  | init (anim : matrix_anim_t) (cv : lv_obj_t) (buf : List lv_color_t) (s : Rand) :
      anim.drops.length = MATRIX_MAX_DROPS → cv.buf = some buf →
      Reachable (matrix_init anim (some cv) s).1
  | start (a : matrix_anim_t) : Reachable a → Reachable (matrix_start a)
  | stop (a : matrix_anim_t) : Reachable a → Reachable (matrix_stop a)
  | tick (a : matrix_anim_t) (s : Rand) : Reachable a →
      Reachable (matrix_animation_work_handler a s).1

/-- The state after initialisation, start and one tick of the example. -/
def example_ticked : matrix_anim_t :=
  (matrix_animation_work_handler
    (matrix_start (matrix_init example_anim (some example_canvas) example_rand).1)
    example_rand).1

/-- A canvas to which no buffer was assigned. -/
def bufferless_canvas : lv_obj_t := { id := 2, buf := none }

/-- The state left by a `matrix_init` whose canvas has no buffer, followed by
`matrix_start`, on an animation that ran before: canvas bound, `canvas_buf` `NULL`,
`active` true. -/
def example_unbound : matrix_anim_t :=
  matrix_start (matrix_init example_running (some bufferless_canvas) example_rand).1

/-! ## The step relation with the scheduler -/

/-- Modelled from the spec: the scheduler takes the pending tick off the work item
when the tick fires, before the handler runs. -/
def k_work_fire (w : k_work_delayable) : k_work_delayable :=
  { w with pending := none }

/-- The events of the lifecycle: a call of `matrix_start`, a call of `matrix_stop`,
the pending tick fires (with the random source that the handler sees). -/
inductive lifecycle_event where
  | start : lifecycle_event
  | stop : lifecycle_event
  | tick (s : Rand) : lifecycle_event

/-- The event is a call of `matrix_start`. -/
def lifecycle_event.is_start : lifecycle_event → Bool
  | .start => true
  | _ => false

/-- One step: `matrix_start`, `matrix_stop`, or the firing of the tick, which is
enabled only when a tick is pending, consumes it and runs the handler. -/
def step (a : matrix_anim_t) : lifecycle_event → Option matrix_anim_t
  | .start => some (matrix_start a)
  | .stop => some (matrix_stop a)
  | .tick s =>
    match a.animation_work.pending with
    | none => none
    | some _ =>
      some (matrix_animation_work_handler
        { a with animation_work := k_work_fire a.animation_work } s).1

/-- A sequence of steps; `none` when a tick is asked to fire that is not pending. -/
def run : matrix_anim_t → List lifecycle_event → Option matrix_anim_t
  | a, [] => some a
  | a, e :: es =>
    match step a e with
    | none => none
    | some b => run b es

/-- The states reachable from a successful `matrix_init` by steps. -/
inductive Scheduled : matrix_anim_t → Prop
  | init (anim : matrix_anim_t) (cv : lv_obj_t) (buf : List lv_color_t) (s : Rand) :
      anim.drops.length = MATRIX_MAX_DROPS → cv.buf = some buf →
      Scheduled (matrix_init anim (some cv) s).1
  | step (a : matrix_anim_t) (e : lifecycle_event) (b : matrix_anim_t) :
      Scheduled a → step a e = some b → Scheduled b

/-- The example after initialisation and start. -/
def example_started : matrix_anim_t :=
  matrix_start (matrix_init example_anim (some example_canvas) example_rand).1

/-! ## Head coordinates -/

/-- The head column that `matrix_draw` uses,
`int16_t x_int = drop->x / FIXED_POINT_SCALE`. -/
def x_int (drop : matrix_drop_t) : Int := toInt16 (Int.tdiv drop.x FIXED_POINT_SCALE)

/-- The head row that `matrix_draw` uses,
`int16_t y_int = drop->y / FIXED_POINT_SCALE`. -/
def y_int (drop : matrix_drop_t) : Int := toInt16 (Int.tdiv drop.y FIXED_POINT_SCALE)

/-- A drop one half pixel above the top edge, as a drop is one tick before it
enters the screen. -/
def entering_drop : matrix_drop_t := { x := 160, y := -8, speed := 8, bright := 1, length := 5 }

/-! ## Example states: below the bottom edge -/

/-- A drop that, after one more tick, has head row 169 and topmost trail row 160:
its whole trail is just below the bottom edge. -/
def late_drop : matrix_drop_t := { x := 160, y := 2696, speed := 8, bright := 1, length := 10 }

/-- A running animation with the late drop in front of 199 hidden drops. -/
def example_late : matrix_anim_t :=
  { canvas := some 1, canvas_buf := some (List.replicate 10880 7),
    drops := late_drop :: List.replicate 199 hidden_drop,
    animation_work := { handler_set := true, pending := some 50 }, active := true }

/-! ## The brightness class -/

/-- A drop with its brightness class blanked: two drops agree on `x`, `y`, `speed`
and `length` exactly when their images are equal. -/
def forget_bright (d : matrix_drop_t) : matrix_drop_t := { d with bright := 0 }

/-- The running example with another brightness class in every drop. -/
def example_running_bright : matrix_anim_t :=
  { example_running with
    drops := example_running.drops.map (fun d => { d with bright := 3 }) }

/-! ## Overlapping drops -/

/-- A drop in lane 10 with head row 55 and a trail of 10 pixels, rows 46..55. -/
def over_drop : matrix_drop_t := { x := 160, y := 880, speed := 8, bright := 1, length := 10 }

/-- Two drops in lane 10: the example drop (head row 50) at index 0, the drop with
head row 55 at index 1, and 198 hidden drops. -/
def example_overlap : matrix_anim_t :=
  { canvas := some 1, canvas_buf := some (List.replicate 10880 7),
    drops := example_drop :: over_drop :: List.replicate 198 hidden_drop,
    animation_work := { handler_set := true, pending := some 50 }, active := true }

/-! ## The canvas buffer of the widget (widgets/matrix_widget.c) -/

/-- Modelled from the spec: the LVGL 8 macro `LV_CANVAS_BUF_SIZE_INDEXED_1BIT(w, h)`,
`((w / 8) + 1) * h + 4 * 2`. -/
def LV_CANVAS_BUF_SIZE_INDEXED_1BIT (w h : Nat) : Nat := ((w / 8) + 1) * h + 4 * 2

/-- Widget width, `#define WIDGET_WIDTH MATRIX_WIDTH`. -/
def WIDGET_WIDTH : Nat := MATRIX_WIDTH

/-- Widget height, `#define WIDGET_HEIGHT MATRIX_HEIGHT`. -/
def WIDGET_HEIGHT : Nat := MATRIX_HEIGHT

/-- The number of `lv_color_t` elements of the canvas buffer that the widget
allocates and binds,
`lv_color_t canvas_buf[LV_CANVAS_BUF_SIZE_INDEXED_1BIT(WIDGET_WIDTH, WIDGET_HEIGHT)]`. -/
def widget_canvas_buf_len : Nat := LV_CANVAS_BUF_SIZE_INDEXED_1BIT WIDGET_WIDTH WIDGET_HEIGHT

/-- The number of `lv_color_t` elements that the clear of `matrix_draw` zeroes,
`memset(buf, 0, sizeof(lv_color_t) * MATRIX_WIDTH * MATRIX_HEIGHT)`. -/
def memset_elements : Nat := MATRIX_WIDTH * MATRIX_HEIGHT

/-- The canvas that the widget creates: its buffer is the widget's `canvas_buf`. -/
def widget_canvas : lv_obj_t := { id := 1, buf := some (List.replicate widget_canvas_buf_len 0) }

/-- The started example after a `matrix_init` with a canvas that has no buffer:
`active` is cleared while the zero-delay tick of `matrix_start` is still pending. -/
def example_reinit : matrix_anim_t :=
  (matrix_init example_started (some bufferless_canvas) example_rand).1

/-! ## Machine integers: basic facts -/

theorem toInt16_of_isInt16 {v : Int} (h : isInt16 v) : toInt16 v = v := by
  unfold isInt16 at h
  unfold toInt16
  omega

theorem isInt16_toInt16 (v : Int) : isInt16 (toInt16 v) := by
  unfold isInt16 toInt16
  omega

/-- Truncating division by 16 in terms of flooring division. -/
theorem tdiv16_cases (a : Int) :
    (0 ≤ a ∧ Int.tdiv a 16 = a / 16) ∨ (a < 0 ∧ Int.tdiv a 16 = -((-a) / 16)) := by
  rcases le_or_lt 0 a with h | h
  · exact Or.inl ⟨h, Int.tdiv_eq_ediv h (by decide)⟩
  · refine Or.inr ⟨h, ?_⟩
    have h1 : Int.tdiv (-a) 16 = (-a) / 16 := Int.tdiv_eq_ediv (by omega) (by decide)
    have h2 : Int.tdiv (-a) 16 = -(Int.tdiv a 16) := Int.neg_tdiv a 16
    omega

/-! ## Fade levels -/

theorem fade_level_eq {len trail_idx : Nat} (hlen : 0 < len) :
    fade_level len trail_idx = ((len - trail_idx) * 255) / len := by
  unfold fade_level toUInt8
  apply Nat.mod_eq_of_lt
  have h1 : (len - trail_idx) * 255 ≤ len * 255 :=
    Nat.mul_le_mul_right 255 (Nat.sub_le len trail_idx)
  have h2 : (len - trail_idx) * 255 / len ≤ len * 255 / len := Nat.div_le_div_right h1
  rw [Nat.mul_div_cancel_left 255 hlen] at h2
  omega

theorem fade_level_zero {len : Nat} (hlen : 0 < len) : fade_level len 0 = 255 := by
  rw [fade_level_eq hlen, Nat.sub_zero, Nat.mul_div_cancel_left 255 hlen]

theorem fade_level_anti {len i j : Nat} (hlen : 0 < len) (hij : i ≤ j) :
    fade_level len j ≤ fade_level len i := by
  rw [fade_level_eq hlen, fade_level_eq hlen]
  apply Nat.div_le_div_right
  apply Nat.mul_le_mul_right
  omega

theorem fade_color_mono {a b : Nat} (hab : a ≤ b) : fade_color a ≤ fade_color b := by
  unfold fade_color lv_color_white lv_color_hex
  split_ifs <;> first | omega | decide

/-- C7. Fade monotonicity: for every trail length `L` with `1 ≤ L ≤ 255` and all
indices `i ≤ j < L`, the fade level that `matrix_draw` computes at `i` is at least
the one at `j`, and the colour tier at `j` is not brighter than the one at `i`
(the tiers white, light gray, dark gray are ordered by their colour value). -/
theorem fade_monotone (L i j : Nat) (hL1 : 1 ≤ L) (_hL2 : L ≤ 255) (hij : i ≤ j)
    (_hj : j < L) :
    fade_level L j ≤ fade_level L i ∧
    fade_color (fade_level L j) ≤ fade_color (fade_level L i) :=
  ⟨fade_level_anti hL1 hij, fade_color_mono (fade_level_anti hL1 hij)⟩

theorem fade_monotone_witness :
    (1 ≤ 10 ∧ 10 ≤ 255 ∧ 3 ≤ 4 ∧ 4 < 10) ∧
    fade_level 10 4 ≤ fade_level 10 3 ∧
    fade_color (fade_level 10 4) ≤ fade_color (fade_level 10 3) :=
  ⟨by decide, fade_monotone 10 3 4 (by decide) (by decide) (by decide) (by decide)⟩

/-- C8. Ends of the trail: for every trail length `L` with `2 ≤ L ≤ 255`, the fade
computation of `matrix_draw` gives `trail_idx = 0` the fade level 255 and the
brightest tier (white), and gives `trail_idx = L - 1` the fade level `255 / L`, at
most 170, hence the mid or the dimmest tier and not the brightest one. -/
theorem trail_ends (L : Nat) (hL1 : 2 ≤ L) (_hL2 : L ≤ 255) :
    fade_level L 0 = 255 ∧ fade_color (fade_level L 0) = lv_color_white ∧
    fade_level L (L - 1) = 255 / L ∧ fade_level L (L - 1) ≤ 170 ∧
    (fade_color (fade_level L (L - 1)) = lv_color_hex 0xAAAAAA ∨
      fade_color (fade_level L (L - 1)) = lv_color_hex 0x555555) ∧
    fade_color (fade_level L (L - 1)) ≠ lv_color_white := by
  have h0 : fade_level L 0 = 255 := fade_level_zero (by omega)
  have h1 : fade_level L (L - 1) = 255 / L := by
    rw [fade_level_eq (by omega)]
    have : L - (L - 1) = 1 := by omega
    rw [this, Nat.one_mul]
  have h2 : 255 / L ≤ 170 := by
    have : 255 / L ≤ 255 / 2 := Nat.div_le_div_left hL1 (by decide)
    have h3 : 255 / 2 = 127 := by decide
    omega
  refine ⟨h0, ?_, h1, by omega, ?_, ?_⟩
  · rw [h0]; decide
  · rw [h1]
    unfold fade_color
    have : ¬ (255 / L > 170) := by omega
    simp only [this, if_false]
    split_ifs
    · exact Or.inl rfl
    · exact Or.inr rfl
  · rw [h1]
    unfold fade_color
    have : ¬ (255 / L > 170) := by omega
    simp only [this, if_false]
    split_ifs <;> decide

theorem trail_ends_witness :
    (2 ≤ 10 ∧ 10 ≤ 255) ∧
    fade_level 10 0 = 255 ∧ fade_color (fade_level 10 0) = lv_color_white ∧
    fade_level 10 (10 - 1) = 255 / 10 ∧ fade_level 10 (10 - 1) ≤ 170 ∧
    (fade_color (fade_level 10 (10 - 1)) = lv_color_hex 0xAAAAAA ∨
      fade_color (fade_level 10 (10 - 1)) = lv_color_hex 0x555555) ∧
    fade_color (fade_level 10 (10 - 1)) ≠ lv_color_white :=
  ⟨by decide, trail_ends 10 (by decide) (by decide)⟩

/-! ## The drop loop -/

theorem map_drops_append (body : matrix_drop_t → Rand → matrix_drop_t × Rand)
    (l1 l2 : List matrix_drop_t) (s : Rand) :
    map_drops body (l1 ++ l2) s =
      ((map_drops body l1 s).1 ++ (map_drops body l2 (map_drops body l1 s).2).1,
        (map_drops body l2 (map_drops body l1 s).2).2) := by
  induction l1 generalizing s with
  | nil => simp [map_drops]
  | cons d ds ih => simp [map_drops, ih]

theorem map_drops_length (body : matrix_drop_t → Rand → matrix_drop_t × Rand)
    (l : List matrix_drop_t) (s : Rand) : (map_drops body l s).1.length = l.length := by
  induction l generalizing s with
  | nil => simp [map_drops]
  | cons d ds ih => simp [map_drops, ih]

theorem for_each_drop_upto (body : matrix_drop_t → Rand → matrix_drop_t × Rand)
    (drops : List matrix_drop_t) (s : Rand) (n : Nat) (hn : n ≤ drops.length) :
    (List.range n).foldl
      (fun (st : List matrix_drop_t × Rand) i =>
        match st.1[i]? with
        | some drop => let r := body drop st.2; (st.1.set i r.1, r.2)
        | none => st)
      (drops, s)
    = ((map_drops body (drops.take n) s).1 ++ drops.drop n,
        (map_drops body (drops.take n) s).2) := by
  induction n with
  | zero => simp [map_drops]
  | succ n ih =>
    have hlt : n < drops.length := by omega
    rw [List.range_succ, List.foldl_append, ih (by omega)]
    have hlen : (map_drops body (List.take n drops) s).1.length = n := by
      rw [map_drops_length, List.length_take]; omega
    have hdrop : drops.drop n = drops[n] :: drops.drop (n + 1) := by
      exact List.drop_eq_getElem_cons hlt
    have htake : drops.take (n + 1) = drops.take n ++ [drops[n]] := by
      rw [List.take_succ, List.getElem?_eq_getElem hlt]; rfl
    have hget : ((map_drops body (List.take n drops) s).1 ++ drops.drop n)[n]?
        = some drops[n] := by
      rw [List.getElem?_append_right (by omega), hlen, hdrop]; simp
    simp only [List.foldl_cons, List.foldl_nil, hget]
    rw [htake, map_drops_append]
    simp only [map_drops]
    rw [List.set_append_right _ _ (by omega), hlen, hdrop]
    simp only [Nat.sub_self, List.set_cons_zero, List.append_assoc, List.singleton_append,
      List.cons_append, List.nil_append]

/-- On an array of `MATRIX_MAX_DROPS` drops the loop visits every drop once, in
index order. -/
theorem for_each_drop_eq (body : matrix_drop_t → Rand → matrix_drop_t × Rand)
    (drops : List matrix_drop_t) (s : Rand) (h : drops.length = MATRIX_MAX_DROPS) :
    for_each_drop body drops s = map_drops body drops s := by
  unfold for_each_drop
  rw [for_each_drop_upto body drops s MATRIX_MAX_DROPS (by omega)]
  rw [← h]
  simp

theorem Rand.skip_zero (s : Rand) : Rand.skip 0 s = s := rfl

theorem Rand.skip_skip (k j : Nat) (s : Rand) :
    Rand.skip k (Rand.skip j s) = Rand.skip (k + j) s := by
  funext n
  simp [Rand.skip, Nat.add_assoc]

/-- Element `i` of the result of the loop is the body applied to element `i`, with
the random source advanced by the calls for the earlier drops. -/
theorem map_drops_getElem (body : matrix_drop_t → Rand → matrix_drop_t × Rand)
    (hbody : ∀ d s, ∃ k, (body d s).2 = Rand.skip k s)
    (l : List matrix_drop_t) (s : Rand) (i : Nat) (hi : i < l.length) :
    ∃ k, (map_drops body l s).1[i]? = some (body l[i] (Rand.skip k s)).1 := by
  induction l generalizing s i with
  | nil => simp at hi
  | cons d ds ih =>
    cases i with
    | zero => exact ⟨0, by simp [map_drops, Rand.skip_zero]⟩
    | succ i =>
      obtain ⟨k0, hk0⟩ := hbody d s
      obtain ⟨k, hk⟩ := ih (body d s).2 i (by simpa using hi)
      refine ⟨k + k0, ?_⟩
      simp only [map_drops, List.getElem?_cons_succ, List.getElem_cons_succ, hk]
      rw [hk0, Rand.skip_skip]

theorem map_drops_forall (body : matrix_drop_t → Rand → matrix_drop_t × Rand)
    (P : matrix_drop_t → Prop) (hP : ∀ d s, P (body d s).1)
    (l : List matrix_drop_t) (s : Rand) : ∀ d ∈ (map_drops body l s).1, P d := by
  induction l generalizing s with
  | nil => simp [map_drops]
  | cons d ds ih =>
    intro e he
    simp only [map_drops, List.mem_cons] at he
    rcases he with rfl | he
    · exact hP d s
    · exact ih _ e he

/-! ## Initialisation of a drop -/

theorem rand_range_spec (min max : Nat) (s : Rand) (h1 : min ≤ max)
    (h2 : max < 4294967295) :
    (min ≤ (rand_range min max s).1 ∧ (rand_range min max s).1 ≤ max) ∧
    (rand_range min max s).2 = Rand.skip 1 s := by
  have hnot : ¬ (max < min) := by omega
  have hrange : toUInt32 (max - min + 1) = max - min + 1 := by
    unfold toUInt32; exact Nat.mod_eq_of_lt (by omega)
  have hmod : (sys_rand32_get s).1 % (max - min + 1) < max - min + 1 :=
    Nat.mod_lt _ (by omega)
  have hval : (rand_range min max s).1 = (sys_rand32_get s).1 % (max - min + 1) + min := by
    simp only [rand_range, hnot, if_false, hrange]
    unfold toUInt32; exact Nat.mod_eq_of_lt (by omega)
  refine ⟨by omega, ?_⟩
  simp [rand_range, hnot, sys_rand32_get]

theorem init_single_drop_fresh (d : matrix_drop_t) (s : Rand) :
    fresh_drop (init_single_drop d s).1 := by
  obtain ⟨⟨_, hx⟩, _⟩ := rand_range_spec 0 (MATRIX_WIDTH - 1) s (by decide) (by decide)
  obtain ⟨⟨_, hy⟩, _⟩ := rand_range_spec 0 (MATRIX_HEIGHT / 2)
    (rand_range 0 (MATRIX_WIDTH - 1) s).2 (by decide) (by decide)
  obtain ⟨hs, _⟩ := rand_range_spec (1 * FIXED_POINT_SCALE / 2) (2 * FIXED_POINT_SCALE / 2)
    (rand_range 0 (MATRIX_HEIGHT / 2) (rand_range 0 (MATRIX_WIDTH - 1) s).2).2
    (by decide) (by decide)
  obtain ⟨hb, _⟩ := rand_range_spec 1 3
    (rand_range (1 * FIXED_POINT_SCALE / 2) (2 * FIXED_POINT_SCALE / 2)
      (rand_range 0 (MATRIX_HEIGHT / 2) (rand_range 0 (MATRIX_WIDTH - 1) s).2).2).2
    (by decide) (by decide)
  obtain ⟨hl, _⟩ := rand_range_spec MATRIX_MIN_TRAIL_LENGTH MATRIX_MAX_TRAIL_LENGTH
    (rand_range 1 3 (rand_range (1 * FIXED_POINT_SCALE / 2) (2 * FIXED_POINT_SCALE / 2)
      (rand_range 0 (MATRIX_HEIGHT / 2) (rand_range 0 (MATRIX_WIDTH - 1) s).2).2).2).2
    (by decide) (by decide)
  simp only [init_single_drop, fresh_drop]
  generalize (rand_range 0 (MATRIX_WIDTH - 1) s).1 = k at hx
  generalize (rand_range 0 (MATRIX_HEIGHT / 2) (rand_range 0 (MATRIX_WIDTH - 1) s).2).1 = m at hy
  generalize (rand_range (1 * FIXED_POINT_SCALE / 2) (2 * FIXED_POINT_SCALE / 2)
      (rand_range 0 (MATRIX_HEIGHT / 2) (rand_range 0 (MATRIX_WIDTH - 1) s).2).2).1 = sp at hs
  generalize (rand_range 1 3 (rand_range (1 * FIXED_POINT_SCALE / 2) (2 * FIXED_POINT_SCALE / 2)
      (rand_range 0 (MATRIX_HEIGHT / 2) (rand_range 0 (MATRIX_WIDTH - 1) s).2).2).2).1 = br at hb
  generalize (rand_range MATRIX_MIN_TRAIL_LENGTH MATRIX_MAX_TRAIL_LENGTH
    (rand_range 1 3 (rand_range (1 * FIXED_POINT_SCALE / 2) (2 * FIXED_POINT_SCALE / 2)
      (rand_range 0 (MATRIX_HEIGHT / 2) (rand_range 0 (MATRIX_WIDTH - 1) s).2).2).2).2).1
      = ln at hl
  simp only [MATRIX_WIDTH, MATRIX_HEIGHT, FIXED_POINT_SCALE, MATRIX_MIN_TRAIL_LENGTH,
    MATRIX_MAX_TRAIL_LENGTH, toUInt8, toUInt32, toInt16] at *
  refine ⟨⟨k, by omega, ?_⟩, ⟨m, by omega, ?_⟩, by omega, by omega, by omega⟩
  · omega
  · omega

theorem init_single_drop_rand (d : matrix_drop_t) (s : Rand) :
    (init_single_drop d s).2 = Rand.skip 5 s := by
  simp only [init_single_drop]
  rw [(rand_range_spec _ _ _ (by decide) (by decide)).2,
    (rand_range_spec _ _ _ (by decide) (by decide)).2,
    (rand_range_spec _ _ _ (by decide) (by decide)).2,
    (rand_range_spec _ _ _ (by decide) (by decide)).2,
    (rand_range_spec _ _ _ (by decide) (by decide)).2]
  simp only [Rand.skip_skip]

/-- C3. For every state of the random source, `init_single_drop` leaves the drop
with `x = 16 * k` for a `k` in `[0, 67]`, `y = -16 * m` for an `m` in `[0, 80]` (as
a signed 16 bit value), `speed` in `[8, 16]`, `bright` in `[1, 3]` and `length` in
`[5, 40]`; and after a `matrix_init` whose canvas has a buffer, all
`MATRIX_MAX_DROPS = 200` drops satisfy these ranges and `active` is false. -/
theorem init_ranges (anim : matrix_anim_t) (cv : lv_obj_t) (buf : List lv_color_t)
    (s : Rand) (hlen : anim.drops.length = MATRIX_MAX_DROPS) (hbuf : cv.buf = some buf) :
    (∀ (d : matrix_drop_t) (s' : Rand), fresh_drop (init_single_drop d s').1) ∧
    (matrix_init anim (some cv) s).1.drops.length = MATRIX_MAX_DROPS ∧
    (∀ d ∈ (matrix_init anim (some cv) s).1.drops, fresh_drop d) ∧
    (matrix_init anim (some cv) s).1.active = false := by
  have hinit : (matrix_init anim (some cv) s).1 =
      { anim with canvas := some cv.id, active := false, canvas_buf := some buf,
                  drops := (map_drops init_single_drop anim.drops s).1,
                  animation_work := k_work_init_delayable anim.animation_work } := by
    simp only [matrix_init, lv_canvas_get_buf, hbuf]
    rw [for_each_drop_eq _ _ _ hlen]
  rw [hinit]
  refine ⟨init_single_drop_fresh, ?_, ?_, rfl⟩
  · simp only [map_drops_length, hlen]
  · exact map_drops_forall _ _ init_single_drop_fresh _ _

theorem init_ranges_witness :
    (example_anim.drops.length = MATRIX_MAX_DROPS ∧
      example_canvas.buf = some (List.replicate 10880 7)) ∧
    (∀ (d : matrix_drop_t) (s' : Rand), fresh_drop (init_single_drop d s').1) ∧
    (matrix_init example_anim (some example_canvas) example_rand).1.drops.length
      = MATRIX_MAX_DROPS ∧
    (∀ d ∈ (matrix_init example_anim (some example_canvas) example_rand).1.drops,
      fresh_drop d) ∧
    (matrix_init example_anim (some example_canvas) example_rand).1.active = false :=
  ⟨⟨List.length_replicate 200 default, rfl⟩,
    init_ranges example_anim example_canvas (List.replicate 10880 7) example_rand
      (List.length_replicate 200 default) rfl⟩

/-! ## Advancing a drop -/

theorem update_drop_eq (d : matrix_drop_t) (s : Rand) (hfit : isInt16 (d.y + d.speed)) :
    update_drop d s =
      if Int.tdiv (d.y + d.speed) 16 - d.length > 160 then init_single_drop d s
      else ({ d with y := d.y + d.speed }, s) := by
  simp only [update_drop, off_screen_below, toInt16_of_isInt16 hfit, FIXED_POINT_SCALE,
    MATRIX_HEIGHT, decide_eq_true_eq, Nat.cast_ofNat]
  by_cases h : Int.tdiv (d.y + d.speed) 16 - d.length > 160
  · rw [if_pos h, if_pos h]
    simp only [init_single_drop]
  · rw [if_neg h, if_neg h]

theorem update_drop_rand (d : matrix_drop_t) (s : Rand) :
    ∃ k, (update_drop d s).2 = Rand.skip k s := by
  simp only [update_drop]
  split_ifs
  · exact ⟨5, init_single_drop_rand _ _⟩
  · exact ⟨0, rfl⟩

theorem matrix_update_positions_drops (anim : matrix_anim_t) (s : Rand)
    (hlen : anim.drops.length = MATRIX_MAX_DROPS) :
    (matrix_update_positions anim s).1.drops = (map_drops update_drop anim.drops s).1 := by
  simp only [matrix_update_positions]
  rw [for_each_drop_eq _ _ _ hlen]

/-- C4. Per-drop effect of `matrix_update_positions` on a state of 200 drops, for
every index `i` whose drop `d` has `d.y + d.speed` within `int16_t`: the result has
200 drops and, with `y' = d.y + d.speed`, if `y' / 16 - d.length > MATRIX_HEIGHT`
(C division) its drop `i` is `d` reinitialised by `init_single_drop`, else it is
`d` with `y` replaced by `y'` and `x`, `speed`, `bright`, `length` unchanged. The
new drop `i` is a function of `d` and of the random source alone: the other drops
only decide how many values (`k`) the random source has given out before. -/
theorem advance_effect (anim : matrix_anim_t) (s : Rand) (i : Nat)
    (hlen : anim.drops.length = MATRIX_MAX_DROPS) (hi : i < anim.drops.length)
    (hfit : isInt16 (anim.drops[i].y + anim.drops[i].speed)) :
    (matrix_update_positions anim s).1.drops.length = MATRIX_MAX_DROPS ∧
    ∃ k, (matrix_update_positions anim s).1.drops[i]? =
      some (if Int.tdiv (anim.drops[i].y + anim.drops[i].speed) FIXED_POINT_SCALE
                - anim.drops[i].length > MATRIX_HEIGHT
            then (init_single_drop anim.drops[i] (Rand.skip k s)).1
            else { anim.drops[i] with y := anim.drops[i].y + anim.drops[i].speed }) := by
  rw [matrix_update_positions_drops anim s hlen]
  refine ⟨by rw [map_drops_length, hlen], ?_⟩
  obtain ⟨k, hk⟩ := map_drops_getElem update_drop update_drop_rand anim.drops s i hi
  refine ⟨k, ?_⟩
  rw [hk, update_drop_eq _ _ hfit]
  simp only [FIXED_POINT_SCALE, MATRIX_HEIGHT, Nat.cast_ofNat]
  split_ifs <;> rfl

theorem advance_effect_witness :
    (example_running.drops.length = MATRIX_MAX_DROPS ∧
      isInt16 (example_drop.y + example_drop.speed)) ∧
    (matrix_update_positions example_running example_rand).1.drops.length
      = MATRIX_MAX_DROPS ∧
    ∃ k, (matrix_update_positions example_running example_rand).1.drops[0]? =
      some (if Int.tdiv (example_drop.y + example_drop.speed) FIXED_POINT_SCALE
                - example_drop.length > MATRIX_HEIGHT
            then (init_single_drop example_drop (Rand.skip k example_rand)).1
            else { example_drop with y := example_drop.y + example_drop.speed }) :=
  ⟨⟨by simp only [example_running, List.length_cons, List.length_replicate, MATRIX_MAX_DROPS], by decide⟩,
    advance_effect example_running example_rand 0
      (by simp only [example_running, List.length_cons, List.length_replicate, MATRIX_MAX_DROPS]) (by simp only [example_running, List.length_cons, List.length_replicate]; omega)
      (by decide)⟩

/-- C5. Recycling: on a state of 200 drops, for every index `i` whose drop `d` (with
fields in the ranges of their C types) has head row
`d.y / 16 = MATRIX_HEIGHT + d.length + 1`, whatever its fractional bits, length and
speed, and for every random source, one call of `matrix_update_positions`
reinitialises the drop: the new drop `i` is the result of `init_single_drop`, its
head row `y / 16` is at most 0 and its length is within `[5, 40]`. -/
theorem recycle_below (anim : matrix_anim_t) (s : Rand) (i : Nat)
    (hlen : anim.drops.length = MATRIX_MAX_DROPS) (hi : i < anim.drops.length)
    (hrange : anim.drops[i].inRange)
    (hrow : Int.tdiv anim.drops[i].y FIXED_POINT_SCALE
      = MATRIX_HEIGHT + anim.drops[i].length + 1) :
    ∃ k d', (matrix_update_positions anim s).1.drops[i]? = some d' ∧
      d' = (init_single_drop anim.drops[i] (Rand.skip k s)).1 ∧
      Int.tdiv d'.y FIXED_POINT_SCALE ≤ 0 ∧
      MATRIX_MIN_TRAIL_LENGTH ≤ d'.length ∧ d'.length ≤ MATRIX_MAX_TRAIL_LENGTH := by
  obtain ⟨_, _, hsp, _, hln⟩ := hrange
  simp only [FIXED_POINT_SCALE, MATRIX_HEIGHT, Nat.cast_ofNat] at hrow
  have hy : 16 * (161 + (anim.drops[i].length : Int)) ≤ anim.drops[i].y ∧
      anim.drops[i].y ≤ 16 * (161 + (anim.drops[i].length : Int)) + 15 := by
    rcases tdiv16_cases anim.drops[i].y with ⟨h0, h1⟩ | ⟨h0, h1⟩ <;> omega
  have hfit : isInt16 (anim.drops[i].y + anim.drops[i].speed) := by
    unfold isInt16; omega
  have hcond : Int.tdiv (anim.drops[i].y + anim.drops[i].speed) 16
      - anim.drops[i].length > 160 := by
    rcases tdiv16_cases (anim.drops[i].y + anim.drops[i].speed) with ⟨h0, h1⟩ | ⟨h0, h1⟩
      <;> omega
  rw [matrix_update_positions_drops anim s hlen]
  obtain ⟨k, hk⟩ := map_drops_getElem update_drop update_drop_rand anim.drops s i hi
  rw [update_drop_eq _ _ hfit, if_pos hcond] at hk
  refine ⟨k, _, hk, rfl, ?_, ?_⟩
  · obtain ⟨_, ⟨m, _, hm⟩, _⟩ := init_single_drop_fresh anim.drops[i] (Rand.skip k s)
    simp only [FIXED_POINT_SCALE, Nat.cast_ofNat]
    rcases tdiv16_cases (init_single_drop anim.drops[i] (Rand.skip k s)).1.y
      with ⟨h0, h1⟩ | ⟨h0, h1⟩ <;> omega
  · exact (init_single_drop_fresh anim.drops[i] (Rand.skip k s)).2.2.2.2

theorem recycle_below_witness :
    (example_running.drops.length = MATRIX_MAX_DROPS ∧ low_drop.inRange ∧
      Int.tdiv low_drop.y FIXED_POINT_SCALE = MATRIX_HEIGHT + low_drop.length + 1) ∧
    ∃ k d', (matrix_update_positions example_running example_rand).1.drops[1]? = some d' ∧
      d' = (init_single_drop low_drop (Rand.skip k example_rand)).1 ∧
      Int.tdiv d'.y FIXED_POINT_SCALE ≤ 0 ∧
      MATRIX_MIN_TRAIL_LENGTH ≤ d'.length ∧ d'.length ≤ MATRIX_MAX_TRAIL_LENGTH :=
  ⟨⟨by simp only [example_running, List.length_cons, List.length_replicate, MATRIX_MAX_DROPS], by decide, by decide⟩,
    recycle_below example_running example_rand 1
      (by simp only [example_running, List.length_cons, List.length_replicate, MATRIX_MAX_DROPS]) (by simp only [example_running, List.length_cons, List.length_replicate]; omega)
      (by decide) (by decide)⟩

/-! ## The pixel writes of `matrix_draw` -/

theorem writes_of_append (l1 l2 : List matrix_drop_t) :
    writes_of (l1 ++ l2) = writes_of l1 ++ writes_of l2 := by
  induction l1 with
  | nil => simp [writes_of]
  | cons d ds ih => simp [writes_of, ih]

theorem draw_writes_upto (drops : List matrix_drop_t) (n : Nat) :
    (List.range n).foldl
      (fun (acc : List px_write) i =>
        match drops[i]? with
        | some drop => acc ++ drop_writes drop
        | none => acc)
      []
    = writes_of (drops.take n) := by
  induction n with
  | zero => simp [writes_of]
  | succ n ih =>
    rw [List.range_succ, List.foldl_append, ih]
    simp only [List.foldl_cons, List.foldl_nil]
    rcases lt_or_le n drops.length with hlt | hle
    · rw [List.take_succ, List.getElem?_eq_getElem hlt, writes_of_append]
      simp [writes_of]
    · rw [List.getElem?_eq_none hle, List.take_of_length_le hle,
        List.take_of_length_le (by omega)]

/-- The drop loop of `matrix_draw` issues the writes of the first
`MATRIX_MAX_DROPS` drops, in index order. -/
theorem draw_writes_eq (drops : List matrix_drop_t) :
    draw_writes drops = writes_of (drops.take MATRIX_MAX_DROPS) := by
  unfold draw_writes
  exact draw_writes_upto drops MATRIX_MAX_DROPS

theorem mem_writes_of {w : px_write} {l : List matrix_drop_t} :
    w ∈ writes_of l ↔ ∃ d ∈ l, w ∈ drop_writes d := by
  induction l with
  | nil => simp [writes_of]
  | cons d ds ih => simp [writes_of, ih]

theorem in_bounds_iff (x y : Int) :
    in_bounds x y = true ↔ 0 ≤ x ∧ x < MATRIX_WIDTH ∧ 0 ≤ y ∧ y < MATRIX_HEIGHT := by
  simp [in_bounds, and_assoc]

theorem drop_writes_in_bounds (d : matrix_drop_t) (w : px_write) (hw : w ∈ drop_writes d) :
    in_bounds w.x w.y = true := by
  simp only [drop_writes, List.mem_append, List.mem_filterMap, List.mem_range] at hw
  rcases hw with ⟨idx, _, hidx⟩ | hhead
  · split_ifs at hidx with hb
    · simp only [Option.some.injEq] at hidx
      rw [← hidx]; exact hb
  · split_ifs at hhead with hb
    · simp only [List.mem_singleton] at hhead
      rw [hhead]; exact hb
    · simp at hhead

theorem mem_matrix_draw_calls {anim : matrix_anim_t} {w : px_write}
    (hw : w ∈ matrix_draw_calls anim) :
    ∃ d ∈ anim.drops.take MATRIX_MAX_DROPS, w ∈ drop_writes d := by
  unfold matrix_draw_calls at hw
  split at hw
  · rw [draw_writes_eq] at hw
    exact mem_writes_of.mp hw
  · simp at hw

theorem matrix_draw_calls_of_mem {anim : matrix_anim_t} {w : px_write} {cv : Nat}
    {buf : List lv_color_t} (hc : anim.canvas = some cv) (hb : anim.canvas_buf = some buf)
    {d : matrix_drop_t} (hd : d ∈ anim.drops.take MATRIX_MAX_DROPS)
    (hw : w ∈ drop_writes d) : w ∈ matrix_draw_calls anim := by
  simp only [matrix_draw_calls, hc, hb, draw_writes_eq]
  exact mem_writes_of.mpr ⟨d, hd, hw⟩

/-- C1. Bounds safety: for every animation state (any `x`, `y` and `length` of every
drop), every pixel write that `matrix_draw` issues, for a trail pixel or for a head
pixel, has a column `c` with `0 ≤ c < MATRIX_WIDTH` and a row `r` with
`0 ≤ r < MATRIX_HEIGHT`. -/
theorem draw_in_bounds (anim : matrix_anim_t) (w : px_write)
    (hw : w ∈ matrix_draw_calls anim) :
    0 ≤ w.x ∧ w.x < MATRIX_WIDTH ∧ 0 ≤ w.y ∧ w.y < MATRIX_HEIGHT := by
  obtain ⟨d, _, hd⟩ := mem_matrix_draw_calls hw
  exact (in_bounds_iff w.x w.y).mp (drop_writes_in_bounds d w hd)

theorem draw_in_bounds_witness :
    ({ x := 10, y := 50, color := lv_color_white } : px_write)
      ∈ matrix_draw_calls example_scene ∧
    (0 : Int) ≤ 10 ∧ (10 : Int) < MATRIX_WIDTH ∧ (0 : Int) ≤ 50 ∧ (50 : Int) < MATRIX_HEIGHT :=
  have hw : ({ x := 10, y := 50, color := lv_color_white } : px_write)
      ∈ matrix_draw_calls example_scene :=
    matrix_draw_calls_of_mem (d := example_drop) rfl rfl
      (by
        have h : example_scene.drops.length ≤ MATRIX_MAX_DROPS := by
          simp only [example_scene, List.length_cons, List.length_replicate,
            MATRIX_MAX_DROPS]
          omega
        rw [List.take_of_length_le h]
        exact List.mem_cons_self _ _)
      (by decide)
  ⟨hw, draw_in_bounds example_scene _ hw⟩

/-! ## The frame that `matrix_draw` leaves -/

theorem length_set_px (buf : List lv_color_t) (w : px_write) :
    (lv_canvas_set_px_color buf w).length = buf.length := by
  unfold lv_canvas_set_px_color
  split_ifs <;> simp

theorem length_foldl_set_px (ws : List px_write) (buf : List lv_color_t) :
    (ws.foldl lv_canvas_set_px_color buf).length = buf.length := by
  induction ws generalizing buf with
  | nil => rfl
  | cons w ws ih => rw [List.foldl_cons, ih, length_set_px]

/-- Reading a grid pixel after one pixel write. -/
theorem get_px_set_px (buf : List lv_color_t) (w : px_write) (c r : Nat)
    (hc : c < MATRIX_WIDTH) (hr : r < MATRIX_HEIGHT)
    (hsize : MATRIX_WIDTH * MATRIX_HEIGHT ≤ buf.length) :
    get_px (lv_canvas_set_px_color buf w) c r =
      if w.x = c ∧ w.y = r then w.color else get_px buf c r := by
  simp only [MATRIX_WIDTH, MATRIX_HEIGHT] at hc hr hsize
  unfold lv_canvas_set_px_color get_px
  by_cases hb : in_bounds w.x w.y = true
  · rw [if_pos hb]
    rw [in_bounds_iff] at hb
    simp only [MATRIX_WIDTH, MATRIX_HEIGHT, Nat.cast_ofNat] at hb ⊢
    simp only [List.getD_eq_getElem?_getD, List.getElem?_set]
    by_cases heq : w.x = c ∧ w.y = r
    · have hidx : (w.y * 68 + w.x).toNat = r * 68 + c := by omega
      have hlt : (w.y * 68 + w.x).toNat < buf.length := by omega
      rw [if_pos heq, if_pos hidx, if_pos hlt]
      rfl
    · have hidx : ¬ ((w.y * 68 + w.x).toNat = r * 68 + c) := by omega
      rw [if_neg heq, if_neg hidx]
  · rw [if_neg hb]
    have heq : ¬ (w.x = c ∧ w.y = r) := by
      rintro ⟨h1, h2⟩
      apply hb
      rw [in_bounds_iff]
      simp only [MATRIX_WIDTH, MATRIX_HEIGHT, Nat.cast_ofNat]
      omega
    rw [if_neg heq]

theorem get_px_memset_frame (buf : List lv_color_t) (c r : Nat)
    (hc : c < MATRIX_WIDTH) (hr : r < MATRIX_HEIGHT)
    (hsize : MATRIX_WIDTH * MATRIX_HEIGHT ≤ buf.length) :
    get_px (memset_frame buf) c r = 0 := by
  simp only [MATRIX_WIDTH, MATRIX_HEIGHT] at hc hr hsize
  unfold get_px memset_frame
  simp only [MATRIX_WIDTH, MATRIX_HEIGHT, List.getD_eq_getElem?_getD]
  rw [List.getElem?_append_left (by simp only [List.length_replicate]; omega)]
  rw [List.getElem?_replicate, if_pos (by omega)]
  rfl

theorem length_memset_frame (buf : List lv_color_t) :
    (memset_frame buf).length = buf.length := by
  unfold memset_frame
  simp only [List.length_append, List.length_replicate, List.length_drop]
  omega

/-- The trail loop, first `n` iterations: the pixel `(c, r)` takes the tier of
`trail_idx = y_int - r` when that index was visited. -/
theorem get_px_trail (buf : List lv_color_t) (x_int y_int : Int) (len n c r : Nat)
    (hy : -2048 ≤ y_int ∧ y_int ≤ 2047) (hn : n ≤ len) (hlen : len < 256)
    (hc : c < MATRIX_WIDTH) (hr : r < MATRIX_HEIGHT)
    (hsize : MATRIX_WIDTH * MATRIX_HEIGHT ≤ buf.length) :
    get_px (((List.range n).filterMap (fun (trail_idx : Nat) =>
        if in_bounds x_int (toInt16 (y_int - trail_idx)) then
          some ({ x := x_int, y := toInt16 (y_int - trail_idx),
                  color := fade_color (fade_level len trail_idx) } : px_write)
        else none)).foldl lv_canvas_set_px_color buf) c r
    = if (c : Int) = x_int ∧ 0 ≤ y_int - r ∧ y_int - r < n
      then fade_color (fade_level len (y_int - r).toNat)
      else get_px buf c r := by
  induction n with
  | zero =>
    have : ¬ ((c : Int) = x_int ∧ 0 ≤ y_int - r ∧ y_int - r < (0 : Nat)) := by omega
    rw [if_neg this]
    rfl
  | succ n ih =>
    have hwrap : toInt16 (y_int - (n : Int)) = y_int - n :=
      toInt16_of_isInt16 (by unfold isInt16; omega)
    rw [List.range_succ, List.filterMap_append, List.foldl_append]
    simp only [List.filterMap_cons, List.filterMap_nil, hwrap]
    by_cases hb : in_bounds x_int (y_int - n) = true
    · simp only [hb, if_true, List.foldl_cons, List.foldl_nil]
      rw [get_px_set_px _ _ c r hc hr (by rw [length_foldl_set_px]; exact hsize)]
      rw [ih (by omega)]
      simp only []
      by_cases h1 : x_int = (c : Int) ∧ y_int - (n : Int) = r
      · have h2 : (c : Int) = x_int ∧ 0 ≤ y_int - r ∧ y_int - r < ((n + 1 : Nat) : Int) := by
          omega
        have h3 : (y_int - r).toNat = n := by omega
        rw [if_pos h1, if_pos h2, h3]
      · rw [if_neg h1]
        by_cases h2 : (c : Int) = x_int ∧ 0 ≤ y_int - r ∧ y_int - r < (n : Int)
        · rw [if_pos h2, if_pos (by omega)]
        · rw [if_neg h2, if_neg (by omega)]
    · simp only [hb, Bool.false_eq_true, if_false, List.foldl_nil]
      rw [ih (by omega)]
      have hout : ¬ ((c : Int) = x_int ∧ y_int - (n : Int) = r) := by
        rintro ⟨h1, h2⟩
        apply hb
        rw [in_bounds_iff]
        simp only [MATRIX_WIDTH, MATRIX_HEIGHT, Nat.cast_ofNat] at hc hr ⊢
        omega
      by_cases h2 : (c : Int) = x_int ∧ 0 ≤ y_int - r ∧ y_int - r < (n : Int)
      · rw [if_pos h2, if_pos (by omega)]
      · rw [if_neg h2, if_neg (by omega)]

theorem fade_level_of_int (len : Nat) (k : Int) (h0 : 0 ≤ k) (hk : k < len) :
    ((((len : Int) - k) * 255) / len).toNat = fade_level len k.toNat := by
  obtain ⟨m, rfl⟩ := Int.eq_ofNat_of_zero_le h0
  have hm : m < len := by omega
  rw [fade_level_eq (by omega), Int.toNat_natCast]
  rw [show ((len : Int) - (m : Int)) = ((len - m : Nat) : Int) from by omega]
  norm_cast

theorem head_col_of_inRange {d : matrix_drop_t} (h : d.inRange) :
    toInt16 (Int.tdiv d.x FIXED_POINT_SCALE) = head_col d := by
  obtain ⟨⟨h1, h2⟩, _⟩ := h
  unfold head_col
  simp only [FIXED_POINT_SCALE, Nat.cast_ofNat]
  apply toInt16_of_isInt16
  unfold isInt16
  rcases tdiv16_cases d.x with ⟨h0, h3⟩ | ⟨h0, h3⟩ <;> omega

theorem head_row_of_inRange {d : matrix_drop_t} (h : d.inRange) :
    toInt16 (Int.tdiv d.y FIXED_POINT_SCALE) = head_row d ∧
    -2048 ≤ head_row d ∧ head_row d ≤ 2047 := by
  obtain ⟨_, ⟨h1, h2⟩, _⟩ := h
  unfold head_row
  simp only [FIXED_POINT_SCALE, Nat.cast_ofNat]
  have hb : -2048 ≤ Int.tdiv d.y 16 ∧ Int.tdiv d.y 16 ≤ 2047 := by
    rcases tdiv16_cases d.y with ⟨h0, h3⟩ | ⟨h0, h3⟩ <;> omega
  refine ⟨?_, hb⟩
  apply toInt16_of_isInt16
  unfold isInt16
  omega

/-- The body of the drop loop of `matrix_draw` for one drop: a covered pixel takes
the colour of the drop, every other pixel keeps its value. -/
theorem get_px_drop (buf : List lv_color_t) (d : matrix_drop_t) (c r : Nat)
    (hrange : d.inRange) (hc : c < MATRIX_WIDTH) (hr : r < MATRIX_HEIGHT)
    (hsize : MATRIX_WIDTH * MATRIX_HEIGHT ≤ buf.length) :
    get_px ((drop_writes d).foldl lv_canvas_set_px_color buf) c r =
      if covers d c r then covered_color d r else get_px buf c r := by
  obtain ⟨hrow, hylo, hyhi⟩ := head_row_of_inRange hrange
  have hlen : d.length < 256 := hrange.2.2.2.2
  simp only [drop_writes, head_col_of_inRange hrange, hrow, List.foldl_append]
  have htrail := get_px_trail buf (head_col d) (head_row d) d.length d.length c r
    ⟨hylo, hyhi⟩ (le_refl _) hlen hc hr hsize
  have hgrid : (c : Int) = head_col d ∧ (r : Int) = head_row d →
      in_bounds (head_col d) (head_row d) = true := by
    rintro ⟨h1, h2⟩
    rw [in_bounds_iff]
    simp only [MATRIX_WIDTH, MATRIX_HEIGHT, Nat.cast_ofNat] at hc hr ⊢
    omega
  by_cases hhead : (c : Int) = head_col d ∧ (r : Int) = head_row d
  · have hb := hgrid hhead
    simp only [hb, if_true, List.foldl_cons, List.foldl_nil]
    rw [get_px_set_px _ _ c r hc hr (by rw [length_foldl_set_px]; exact hsize)]
    have hcov : covers d c r := ⟨hhead.1, Or.inl hhead.2⟩
    rw [if_pos hcov, if_pos ⟨hhead.1.symm, hhead.2.symm⟩]
    unfold covered_color
    rw [if_pos hhead.2]
  · have hrest : get_px
        ((if in_bounds (head_col d) (head_row d) = true then
            [({ x := head_col d, y := head_row d, color := lv_color_white } : px_write)]
          else []).foldl lv_canvas_set_px_color
          (((List.range d.length).filterMap (fun (trail_idx : Nat) =>
            if in_bounds (head_col d) (toInt16 (head_row d - trail_idx)) then
              some ({ x := head_col d, y := toInt16 (head_row d - trail_idx),
                      color := fade_color (fade_level d.length trail_idx) } : px_write)
            else none)).foldl lv_canvas_set_px_color buf)) c r
        = get_px (((List.range d.length).filterMap (fun (trail_idx : Nat) =>
            if in_bounds (head_col d) (toInt16 (head_row d - trail_idx)) then
              some ({ x := head_col d, y := toInt16 (head_row d - trail_idx),
                      color := fade_color (fade_level d.length trail_idx) } : px_write)
            else none)).foldl lv_canvas_set_px_color buf) c r := by
      split_ifs with hb
      · simp only [List.foldl_cons, List.foldl_nil]
        rw [get_px_set_px _ _ c r hc hr (by rw [length_foldl_set_px]; exact hsize)]
        rw [if_neg (by intro h; exact hhead ⟨h.1.symm, h.2.symm⟩)]
      · rfl
    rw [hrest, htrail]
    by_cases hcov : covers d c r
    · obtain ⟨h1, h2⟩ := hcov
      have h3 : 0 ≤ head_row d - r ∧ head_row d - r < (d.length : Int) := by
        rcases h2 with h2 | h2
        · exact absurd ⟨h1, h2⟩ hhead
        · omega
      have hne : ¬ ((r : Int) = head_row d) := fun h => hhead ⟨h1, h⟩
      rw [if_pos ⟨h1, h3⟩, if_pos ⟨h1, h2⟩]
      unfold covered_color
      rw [if_neg hne, fade_level_of_int _ _ h3.1 h3.2]
    · have hno : ¬ ((c : Int) = head_col d ∧ 0 ≤ head_row d - r ∧
          head_row d - r < (d.length : Int)) := by
        rintro ⟨h1, h2, h3⟩
        exact hcov ⟨h1, Or.inr (by omega)⟩
      rw [if_neg hno, if_neg hcov]

theorem get_px_writes_of (drops : List matrix_drop_t) (buf : List lv_color_t) (c r : Nat)
    (hrange : ∀ d ∈ drops, d.inRange) (hc : c < MATRIX_WIDTH) (hr : r < MATRIX_HEIGHT)
    (hsize : MATRIX_WIDTH * MATRIX_HEIGHT ≤ buf.length) :
    get_px ((writes_of drops).foldl lv_canvas_set_px_color buf) c r =
      drops.foldl (fun acc d => if covers d c r then covered_color d r else acc)
        (get_px buf c r) := by
  induction drops generalizing buf with
  | nil => rfl
  | cons d ds ih =>
    simp only [writes_of, List.foldl_append, List.foldl_cons]
    rw [ih _ (fun e he => hrange e (List.mem_cons_of_mem _ he))
      (by rw [length_foldl_set_px]; exact hsize)]
    rw [get_px_drop buf d c r (hrange d (List.mem_cons_self _ _)) hc hr hsize]

theorem foldl_none_selected {α β : Type} (P : α → Prop) [DecidablePred P] (f : α → β)
    (l : List α) (init : β) (h : ∀ d ∈ l, ¬ P d) :
    l.foldl (fun acc d => if P d then f d else acc) init = init := by
  induction l generalizing init with
  | nil => rfl
  | cons d ds ih =>
    rw [List.foldl_cons, if_neg (h d (List.mem_cons_self _ _))]
    exact ih init (fun e he => h e (List.mem_cons_of_mem _ he))

theorem foldl_last_selected {α β : Type} (P : α → Prop) [DecidablePred P] (f : α → β)
    (l : List α) (init : β) (i : Nat) (hi : i < l.length) (hP : P l[i])
    (hlast : ∀ j (hj : j < l.length), i < j → ¬ P l[j]) :
    l.foldl (fun acc d => if P d then f d else acc) init = f l[i] := by
  induction l generalizing init i with
  | nil => simp at hi
  | cons d ds ih =>
    rw [List.foldl_cons]
    cases i with
    | zero =>
      simp only [List.getElem_cons_zero] at hP ⊢
      rw [if_pos hP]
      apply foldl_none_selected
      intro e he
      obtain ⟨j, hj, rfl⟩ := List.getElem_of_mem he
      exact hlast (j + 1) (by simpa using hj) (by omega)
    | succ i =>
      simp only [List.getElem_cons_succ] at hP ⊢
      apply ih _ i (by simpa using hi) hP
      intro j hj hij
      exact hlast (j + 1) (by simpa using hj) (by omega)

/-- C2. Postcondition of `matrix_draw`, for every state with canvas and buffer bound,
200 drops with fields in the ranges of their C types and a buffer that holds one
element for each of the `MATRIX_WIDTH * MATRIX_HEIGHT` pixels, whatever it held
before: the call leaves a buffer in which every grid pixel covered by no drop is 0
and every covered pixel has the colour `covered_color` of the highest-index drop
covering it (white in the head row, else the tier of the fade level). -/
theorem draw_frame (anim : matrix_anim_t) (cv : Nat) (buf : List lv_color_t)
    (hcv : anim.canvas = some cv) (hbuf : anim.canvas_buf = some buf)
    (hlen : anim.drops.length = MATRIX_MAX_DROPS)
    (hsize : MATRIX_WIDTH * MATRIX_HEIGHT ≤ buf.length)
    (hrange : ∀ d ∈ anim.drops, d.inRange) :
    ∃ out, (matrix_draw anim).canvas_buf = some out ∧
      ∀ c r, c < MATRIX_WIDTH → r < MATRIX_HEIGHT →
        ((∀ d ∈ anim.drops, ¬ covers d c r) → get_px out c r = 0) ∧
        (∀ i (hi : i < anim.drops.length), covers anim.drops[i] c r →
          (∀ j (hj : j < anim.drops.length), i < j → ¬ covers anim.drops[j] c r) →
          get_px out c r = covered_color anim.drops[i] r) := by
  refine ⟨(writes_of anim.drops).foldl lv_canvas_set_px_color (memset_frame buf), ?_, ?_⟩
  · simp only [matrix_draw, hcv, hbuf, draw_writes_eq]
    rw [List.take_of_length_le (by omega)]
  · intro c r hc hr
    have hpx := get_px_writes_of anim.drops (memset_frame buf) c r hrange hc hr
      (by rw [length_memset_frame]; exact hsize)
    rw [get_px_memset_frame buf c r hc hr hsize] at hpx
    rw [hpx]
    constructor
    · intro hnone
      exact foldl_none_selected (fun d => covers d c r) (fun d => covered_color d r)
        anim.drops 0 hnone
    · intro i hi hcov hlast
      exact foldl_last_selected (fun d => covers d c r) (fun d => covered_color d r)
        anim.drops 0 i hi hcov hlast

theorem not_covers_hidden_drop (c r : Nat) : ¬ covers hidden_drop c r := by
  have e : Int.tdiv (-1280) 16 = -80 := by decide
  unfold covers head_row head_col hidden_drop
  simp only [e]
  omega

theorem covers_example_drop (c r : Nat) :
    covers example_drop c r ↔ c = 10 ∧ 41 ≤ r ∧ r ≤ 50 := by
  have e1 : Int.tdiv 160 16 = 10 := by decide
  have e2 : Int.tdiv 800 16 = 50 := by decide
  unfold covers head_row head_col example_drop
  simp only [e1, e2]
  omega

theorem covered_color_example_drop (r : Nat) (h1 : 41 ≤ r) (h2 : r ≤ 50) :
    covered_color example_drop r =
      if 47 ≤ r then lv_color_white
      else if 44 ≤ r then lv_color_hex 0xAAAAAA else lv_color_hex 0x555555 := by
  interval_cases r <;> decide

theorem draw_frame_witness :
    (example_scene.canvas = some 1 ∧
      example_scene.canvas_buf = some (List.replicate 10880 7) ∧
      example_scene.drops.length = MATRIX_MAX_DROPS ∧
      MATRIX_WIDTH * MATRIX_HEIGHT ≤ (List.replicate 10880 (7 : lv_color_t)).length ∧
      ∀ d ∈ example_scene.drops, d.inRange) ∧
    ∃ out, (matrix_draw example_scene).canvas_buf = some out ∧
      ∀ c r, c < MATRIX_WIDTH → r < MATRIX_HEIGHT →
        get_px out c r =
          if c = 10 ∧ 41 ≤ r ∧ r ≤ 50 then
            (if 47 ≤ r then lv_color_white
             else if 44 ≤ r then lv_color_hex 0xAAAAAA else lv_color_hex 0x555555)
          else 0 := by
  have hlen : example_scene.drops.length = MATRIX_MAX_DROPS := by
    simp only [example_scene, List.length_cons, List.length_replicate, MATRIX_MAX_DROPS]
  have hsize : MATRIX_WIDTH * MATRIX_HEIGHT ≤ (List.replicate 10880 (7 : lv_color_t)).length := by
    rw [List.length_replicate]; decide
  have hrange : ∀ d ∈ example_scene.drops, d.inRange := by
    intro d hd
    simp only [example_scene, List.mem_cons, List.mem_replicate] at hd
    rcases hd with rfl | ⟨_, rfl⟩ <;> decide
  refine ⟨⟨rfl, rfl, hlen, hsize, hrange⟩, ?_⟩
  obtain ⟨out, hout, hpx⟩ :=
    draw_frame example_scene 1 (List.replicate 10880 7) rfl rfl hlen hsize hrange
  refine ⟨out, hout, fun c r hc hr => ?_⟩
  obtain ⟨hnone, hlast⟩ := hpx c r hc hr
  by_cases hcov : covers example_drop c r
  · have h := (covers_example_drop c r).mp hcov
    rw [if_pos h]
    have hpx0 := hlast 0 (by rw [hlen]; decide) hcov (by
      intro j hj hij
      cases j with
      | zero => omega
      | succ j =>
        simp only [example_scene, List.getElem_cons_succ, List.getElem_replicate]
        exact not_covers_hidden_drop c r)
    rw [hpx0]
    exact covered_color_example_drop r h.2.1 h.2.2
  · have h : ¬ (c = 10 ∧ 41 ≤ r ∧ r ≤ 50) := fun h => hcov ((covers_example_drop c r).mpr h)
    rw [if_neg h]
    apply hnone
    intro d hd
    simp only [example_scene, List.mem_cons, List.mem_replicate] at hd
    rcases hd with rfl | ⟨_, rfl⟩
    · exact hcov
    · exact not_covers_hidden_drop c r

/-! ## Invariants of the reachable states -/

theorem map_drops_preserves (body : matrix_drop_t → Rand → matrix_drop_t × Rand)
    (P : matrix_drop_t → Prop) (hP : ∀ d s, P d → P (body d s).1)
    (l : List matrix_drop_t) (s : Rand) (hl : ∀ d ∈ l, P d) :
    ∀ d ∈ (map_drops body l s).1, P d := by
  induction l generalizing s with
  | nil => simp [map_drops]
  | cons d ds ih =>
    intro e he
    simp only [map_drops, List.mem_cons] at he
    rcases he with rfl | he
    · exact hP d s (hl d (List.mem_cons_self _ _))
    · exact ih _ (fun x hx => hl x (List.mem_cons_of_mem _ hx)) e he

theorem matrix_draw_drops (a : matrix_anim_t) : (matrix_draw a).drops = a.drops := by
  unfold matrix_draw
  split <;> rfl

theorem matrix_start_drops (a : matrix_anim_t) : (matrix_start a).drops = a.drops := by
  unfold matrix_start
  split_ifs <;> rfl

theorem matrix_stop_drops (a : matrix_anim_t) : (matrix_stop a).drops = a.drops := by
  unfold matrix_stop
  split_ifs <;> rfl

theorem handler_drops (a : matrix_anim_t) (s : Rand) :
    (matrix_animation_work_handler a s).1.drops = a.drops ∨
    (matrix_animation_work_handler a s).1.drops = (matrix_update_positions a s).1.drops := by
  unfold matrix_animation_work_handler
  split_ifs
  · exact Or.inl rfl
  · exact Or.inr (matrix_draw_drops _)

/-- A property of single drops that `init_single_drop` establishes and the body of
the update loop preserves holds for every drop of every reachable state, which has
`MATRIX_MAX_DROPS` drops. -/
theorem reachable_drops (P : matrix_drop_t → Prop)
    (hinit : ∀ d s, P (init_single_drop d s).1)
    (hstep : ∀ d s, P d → P (update_drop d s).1)
    (a : matrix_anim_t) (h : Reachable a) :
    a.drops.length = MATRIX_MAX_DROPS ∧ ∀ d ∈ a.drops, P d := by
  induction h with
  | init anim cv buf s hlen hbuf =>
    have hdrops : (matrix_init anim (some cv) s).1.drops
        = (map_drops init_single_drop anim.drops s).1 := by
      simp only [matrix_init, lv_canvas_get_buf, hbuf]
      rw [for_each_drop_eq _ _ _ hlen]
    rw [hdrops]
    exact ⟨by rw [map_drops_length, hlen], map_drops_forall _ P hinit _ _⟩
  | start a _ ih => rw [matrix_start_drops]; exact ih
  | stop a _ ih => rw [matrix_stop_drops]; exact ih
  | tick a s _ ih =>
    rcases handler_drops a s with h | h
    · rw [h]; exact ih
    · rw [h, matrix_update_positions_drops a s ih.1]
      exact ⟨by rw [map_drops_length, ih.1], map_drops_preserves _ P hstep _ _ ih.2⟩

theorem update_drop_x (d : matrix_drop_t) (s : Rand) :
    (update_drop d s).1.x = d.x ∨ (update_drop d s).1 = (init_single_drop d s).1 := by
  simp only [update_drop]
  split_ifs
  · exact Or.inr (by simp only [init_single_drop])
  · exact Or.inl rfl

/-- C6. Lane invariant: in every state reachable from a successful `matrix_init` by
any finite sequence of `matrix_start`, `matrix_stop` and tick handler executions,
with any outputs of the random source, there are 200 drops and every drop satisfies
`0 ≤ x / 16 < MATRIX_WIDTH` (C division). -/
theorem lane_invariant (a : matrix_anim_t) (h : Reachable a) :
    a.drops.length = MATRIX_MAX_DROPS ∧
    ∀ d ∈ a.drops, 0 ≤ Int.tdiv d.x FIXED_POINT_SCALE ∧
      Int.tdiv d.x FIXED_POINT_SCALE < MATRIX_WIDTH := by
  have hfresh : ∀ d : matrix_drop_t, (∃ k : Nat, k ≤ MATRIX_WIDTH - 1 ∧ d.x = 16 * (k : Int)) →
      0 ≤ Int.tdiv d.x FIXED_POINT_SCALE ∧ Int.tdiv d.x FIXED_POINT_SCALE < MATRIX_WIDTH := by
    rintro d ⟨k, hk, hx⟩
    simp only [MATRIX_WIDTH, FIXED_POINT_SCALE, Nat.cast_ofNat] at hk ⊢
    rcases tdiv16_cases d.x with ⟨h0, h1⟩ | ⟨h0, h1⟩ <;> omega
  have hinv := reachable_drops
    (fun d => ∃ k : Nat, k ≤ MATRIX_WIDTH - 1 ∧ d.x = 16 * (k : Int))
    (fun d s => (init_single_drop_fresh d s).1)
    (fun d s hd => by
      rcases update_drop_x d s with hx | hx
      · obtain ⟨k, hk, hk2⟩ := hd
        exact ⟨k, hk, by rw [hx]; exact hk2⟩
      · rw [hx]; exact (init_single_drop_fresh d s).1)
    a h
  exact ⟨hinv.1, fun d hd => hfresh d (hinv.2 d hd)⟩

theorem lane_invariant_witness :
    Reachable example_ticked ∧
    example_ticked.drops.length = MATRIX_MAX_DROPS ∧
    ∀ d ∈ example_ticked.drops, 0 ≤ Int.tdiv d.x FIXED_POINT_SCALE ∧
      Int.tdiv d.x FIXED_POINT_SCALE < MATRIX_WIDTH :=
  have hr : Reachable example_ticked :=
    Reachable.tick _ example_rand (Reachable.start _
      (Reachable.init example_anim example_canvas (List.replicate 10880 7) example_rand
        (List.length_replicate 200 default) rfl))
  ⟨hr, lane_invariant example_ticked hr⟩

/-! ## The tick handler -/

theorem matrix_update_positions_fields (anim : matrix_anim_t) (s : Rand) :
    (matrix_update_positions anim s).1.canvas = anim.canvas ∧
    (matrix_update_positions anim s).1.canvas_buf = anim.canvas_buf ∧
    (matrix_update_positions anim s).1.active = anim.active ∧
    (matrix_update_positions anim s).1.animation_work = anim.animation_work := by
  simp only [matrix_update_positions, and_self]

theorem matrix_draw_fields (a : matrix_anim_t) :
    (matrix_draw a).canvas = a.canvas ∧ (matrix_draw a).active = a.active ∧
    (matrix_draw a).animation_work = a.animation_work := by
  unfold matrix_draw
  split <;> exact ⟨rfl, rfl, rfl⟩

theorem matrix_draw_unbound (a : matrix_anim_t) (h : a.canvas_buf = none) :
    matrix_draw a = a := by
  unfold matrix_draw
  split
  · rename_i hb
    rw [h] at hb
    exact absurd hb (by simp)
  · rfl

theorem matrix_draw_bound (a : matrix_anim_t) (cv : Nat) (buf : List lv_color_t)
    (hcv : a.canvas = some cv) (hbuf : a.canvas_buf = some buf)
    (hlen : a.drops.length ≤ MATRIX_MAX_DROPS) :
    (matrix_draw a).canvas_buf =
      some ((writes_of a.drops).foldl lv_canvas_set_px_color (memset_frame buf)) := by
  simp only [matrix_draw, hcv, hbuf, draw_writes_eq]
  rw [List.take_of_length_le hlen]

/-- The tick handler past its guard: update, draw, reschedule. -/
theorem handler_run (anim : matrix_anim_t) (s : Rand) (cv : Nat)
    (hact : anim.active = true) (hcv : anim.canvas = some cv) :
    (matrix_animation_work_handler anim s).1.drops = (matrix_update_positions anim s).1.drops ∧
    (matrix_animation_work_handler anim s).1.canvas_buf
      = (matrix_draw (matrix_update_positions anim s).1).canvas_buf ∧
    (matrix_animation_work_handler anim s).1.animation_work
      = k_work_reschedule anim.animation_work MATRIX_FRAME_DELAY_MS ∧
    (matrix_animation_work_handler anim s).1.active = true ∧
    (matrix_animation_work_handler anim s).1.canvas = some cv ∧
    (matrix_animation_work_handler anim s).2 = (matrix_update_positions anim s).2 := by
  have hguard : (!anim.active || anim.canvas.isNone) = false := by
    rw [hact, hcv]; rfl
  obtain ⟨u1, _, u3, u4⟩ := matrix_update_positions_fields anim s
  obtain ⟨d1, d2, d3⟩ := matrix_draw_fields (matrix_update_positions anim s).1
  simp only [matrix_animation_work_handler, hguard, Bool.false_eq_true, if_false]
  refine ⟨matrix_draw_drops _, trivial, ?_, ?_, ?_, trivial⟩
  · rw [d3, u4]
  · rw [d2, u3, hact]
  · rw [d1, u1, hcv]

/-- C9. Tick in the Running state: for every state of 200 drops with `active` true
and canvas and buffer bound, one execution of `matrix_animation_work_handler` yields
the state in which (1) the drops are those that `matrix_update_positions` leaves,
every drop advanced once by the loop body, (2) the pixel buffer is the rendering by
`matrix_draw` of those already advanced drops on the cleared frame, and (3) the
scheduler holds the next tick, with delay `MATRIX_FRAME_DELAY_MS = 50`; `active`
stays true and the canvas stays bound. -/
theorem tick_running (anim : matrix_anim_t) (s : Rand) (cv : Nat) (buf : List lv_color_t)
    (hact : anim.active = true) (hcv : anim.canvas = some cv)
    (hbuf : anim.canvas_buf = some buf) (hlen : anim.drops.length = MATRIX_MAX_DROPS) :
    (matrix_animation_work_handler anim s).1.drops = (matrix_update_positions anim s).1.drops ∧
    (matrix_animation_work_handler anim s).1.drops = (map_drops update_drop anim.drops s).1 ∧
    (matrix_animation_work_handler anim s).1.canvas_buf
      = (matrix_draw (matrix_update_positions anim s).1).canvas_buf ∧
    (matrix_animation_work_handler anim s).1.canvas_buf
      = some ((writes_of (map_drops update_drop anim.drops s).1).foldl
          lv_canvas_set_px_color (memset_frame buf)) ∧
    (matrix_animation_work_handler anim s).1.animation_work.pending
      = some MATRIX_FRAME_DELAY_MS ∧
    MATRIX_FRAME_DELAY_MS = 50 ∧
    (matrix_animation_work_handler anim s).1.active = true ∧
    (matrix_animation_work_handler anim s).1.canvas = some cv ∧
    (matrix_animation_work_handler anim s).2 = (matrix_update_positions anim s).2 := by
  obtain ⟨h1, h2, h3, h4, h5, h6⟩ := handler_run anim s cv hact hcv
  obtain ⟨u1, u2, _, _⟩ := matrix_update_positions_fields anim s
  have hdrops := matrix_update_positions_drops anim s hlen
  have hdraw := matrix_draw_bound (matrix_update_positions anim s).1 cv buf
    (by rw [u1, hcv]) (by rw [u2, hbuf]) (by rw [hdrops, map_drops_length, hlen])
  refine ⟨h1, by rw [h1, hdrops], h2, ?_, ?_, rfl, h4, h5, h6⟩
  · rw [h2, hdraw, hdrops]
  · rw [h3]; rfl

theorem tick_running_witness :
    (example_running.active = true ∧ example_running.canvas = some 1 ∧
      example_running.canvas_buf = some (List.replicate 10880 7) ∧
      example_running.drops.length = MATRIX_MAX_DROPS) ∧
    (matrix_animation_work_handler example_running example_rand).1.drops
      = (matrix_update_positions example_running example_rand).1.drops ∧
    (matrix_animation_work_handler example_running example_rand).1.drops
      = (map_drops update_drop example_running.drops example_rand).1 ∧
    (matrix_animation_work_handler example_running example_rand).1.canvas_buf
      = (matrix_draw (matrix_update_positions example_running example_rand).1).canvas_buf ∧
    (matrix_animation_work_handler example_running example_rand).1.canvas_buf
      = some ((writes_of (map_drops update_drop example_running.drops example_rand).1).foldl
          lv_canvas_set_px_color (memset_frame (List.replicate 10880 7))) ∧
    (matrix_animation_work_handler example_running example_rand).1.animation_work.pending
      = some MATRIX_FRAME_DELAY_MS ∧
    MATRIX_FRAME_DELAY_MS = 50 ∧
    (matrix_animation_work_handler example_running example_rand).1.active = true ∧
    (matrix_animation_work_handler example_running example_rand).1.canvas = some 1 ∧
    (matrix_animation_work_handler example_running example_rand).2
      = (matrix_update_positions example_running example_rand).2 :=
  have hlen : example_running.drops.length = MATRIX_MAX_DROPS := by
    simp only [example_running, List.length_cons, List.length_replicate, MATRIX_MAX_DROPS]
  ⟨⟨rfl, rfl, rfl, hlen⟩,
    tick_running example_running example_rand 1 (List.replicate 10880 7) rfl rfl rfl hlen⟩

/-- The guard of the tick handler: when the animation is inactive or the canvas is
unbound, the handler changes nothing. -/
theorem handler_guard (anim : matrix_anim_t) (s : Rand)
    (h : anim.active = false ∨ anim.canvas = none) :
    matrix_animation_work_handler anim s = (anim, s) := by
  unfold matrix_animation_work_handler
  rcases h with h | h
  · rw [h]; rfl
  · rw [h]; simp

theorem map_drops_head (body : matrix_drop_t → Rand → matrix_drop_t × Rand)
    (d : matrix_drop_t) (ds : List matrix_drop_t) (s : Rand) :
    (map_drops body (d :: ds) s).1[0]? = some (body d s).1 := by
  simp only [map_drops, List.getElem?_cons_zero]

theorem example_unbound_eq :
    example_unbound =
      { canvas := some 2, canvas_buf := none, drops := example_running.drops,
        animation_work := ⟨true, some 0⟩, active := true } := by
  simp only [example_unbound, matrix_init, bufferless_canvas, lv_canvas_get_buf,
    matrix_start, K_NO_WAIT, k_work_reschedule]
  simp only [example_running, Option.isNone_some, Bool.false_eq_true, if_false]

/-- C10, the code at the failing input. In the state left by a `matrix_init` whose
canvas has no buffer followed by `matrix_start` (canvas bound, `canvas_buf` `NULL`,
`active` true, the zero-delay tick pending), one execution of the tick handler does
not return at its guard: it advances drop 0 from `y = 800` to `y = 808` and
reschedules the tick with delay 50, while the buffer stays unbound. -/
theorem tick_unbound_buffer :
    example_unbound.active = true ∧ example_unbound.canvas = some 2 ∧
    example_unbound.canvas_buf = none ∧
    example_unbound.drops[0]? = some example_drop ∧
    example_unbound.animation_work.pending = some 0 ∧
    (matrix_animation_work_handler example_unbound example_rand).1.drops[0]?
      = some { example_drop with y := 808 } ∧
    (matrix_animation_work_handler example_unbound example_rand).1.animation_work.pending
      = some 50 ∧
    (matrix_animation_work_handler example_unbound example_rand).1.canvas_buf = none := by
  have hact : example_unbound.active = true := by rw [example_unbound_eq]
  have hcv : example_unbound.canvas = some 2 := by rw [example_unbound_eq]
  have hbuf : example_unbound.canvas_buf = none := by rw [example_unbound_eq]
  have hdr : example_unbound.drops = example_running.drops := by rw [example_unbound_eq]
  have hwork : example_unbound.animation_work = ⟨true, some 0⟩ := by rw [example_unbound_eq]
  have hlen : example_unbound.drops.length = MATRIX_MAX_DROPS := by
    rw [hdr]
    simp only [example_running, List.length_cons, List.length_replicate, MATRIX_MAX_DROPS]
  obtain ⟨h1, h2, h3, _, _, _⟩ := handler_run example_unbound example_rand 2 hact hcv
  obtain ⟨_, u2, _, _⟩ := matrix_update_positions_fields example_unbound example_rand
  have hmoved : (map_drops update_drop example_unbound.drops example_rand).1[0]?
      = some { example_drop with y := 808 } := by
    rw [hdr]
    simp only [example_running]
    rw [map_drops_head, update_drop_eq _ _ (by decide)]
    decide
  have hd0 : example_unbound.drops[0]? = some example_drop := by
    rw [hdr]
    simp only [example_running, List.getElem?_cons_zero]
  refine ⟨hact, hcv, hbuf, hd0, by rw [hwork], ?_, ?_, ?_⟩
  · rw [h1, matrix_update_positions_drops _ _ hlen]
    exact hmoved
  · rw [h3]; rfl
  · rw [h2, matrix_draw_unbound _ (by rw [u2, hbuf]), u2, hbuf]

/-! ## Lifecycle operations -/

theorem matrix_init_null_canvas (anim : matrix_anim_t) (s : Rand) :
    matrix_init anim none s = (anim, s) := rfl

theorem matrix_init_no_buffer (anim : matrix_anim_t) (cv : lv_obj_t) (s : Rand)
    (hbuf : cv.buf = none) :
    matrix_init anim (some cv) s =
      ({ canvas := some cv.id, canvas_buf := none, drops := anim.drops,
         animation_work := anim.animation_work, active := false }, s) := by
  simp only [matrix_init, lv_canvas_get_buf, hbuf]

theorem matrix_init_ok_fields (anim : matrix_anim_t) (cv : lv_obj_t) (buf : List lv_color_t)
    (s : Rand) (hbuf : cv.buf = some buf) :
    (matrix_init anim (some cv) s).1.canvas = some cv.id ∧
    (matrix_init anim (some cv) s).1.canvas_buf = some buf ∧
    (matrix_init anim (some cv) s).1.active = false ∧
    (matrix_init anim (some cv) s).1.animation_work
      = k_work_init_delayable anim.animation_work := by
  simp only [matrix_init, lv_canvas_get_buf, hbuf, and_self]

theorem matrix_start_running (a : matrix_anim_t) (h : a.active = true) :
    matrix_start a = a := by
  unfold matrix_start
  split_ifs <;> rfl

theorem matrix_start_stopped (a : matrix_anim_t) (cv : Nat) (hcv : a.canvas = some cv)
    (h : a.active = false) :
    matrix_start a =
      { a with active := true,
               animation_work := k_work_reschedule a.animation_work K_NO_WAIT } := by
  unfold matrix_start
  rw [hcv, h]
  rfl

theorem matrix_stop_stopped (a : matrix_anim_t) (h : a.active = false) :
    matrix_stop a = a := by
  unfold matrix_stop
  rw [h]
  rfl

theorem matrix_stop_running (a : matrix_anim_t) (h : a.active = true) :
    matrix_stop a =
      { a with active := false,
               animation_work := k_work_cancel_delayable a.animation_work } := by
  unfold matrix_stop
  rw [h]
  rfl

theorem example_ticked_fields :
    example_ticked.canvas = some 1 ∧ example_ticked.active = true ∧
    example_ticked.animation_work.pending = some 50 := by
  obtain ⟨i1, _, i3, _⟩ := matrix_init_ok_fields example_anim example_canvas
    (List.replicate 10880 7) example_rand rfl
  have hstart := matrix_start_stopped
    (matrix_init example_anim (some example_canvas) example_rand).1 1 i1 i3
  have hact : (matrix_start
      (matrix_init example_anim (some example_canvas) example_rand).1).active = true := by
    rw [hstart]
  have hcv : (matrix_start
      (matrix_init example_anim (some example_canvas) example_rand).1).canvas = some 1 := by
    rw [hstart]; exact i1
  obtain ⟨_, _, h3, h4, h5, _⟩ := handler_run _ example_rand 1 hact hcv
  unfold example_ticked
  refine ⟨h5, h4, ?_⟩
  rw [h3]
  rfl

theorem example_reinit_fields :
    example_reinit.active = false ∧ example_reinit.animation_work.pending = some 0 := by
  obtain ⟨i1, _, i3, _⟩ := matrix_init_ok_fields example_anim example_canvas
    (List.replicate 10880 7) example_rand rfl
  have hstart : example_started = _ := matrix_start_stopped
    (matrix_init example_anim (some example_canvas) example_rand).1 1 i1 i3
  have hpend : example_started.animation_work.pending = some 0 := by
    rw [hstart]; rfl
  have h := matrix_init_no_buffer example_started bufferless_canvas example_rand rfl
  unfold example_reinit
  rw [h]
  exact ⟨rfl, hpend⟩

/-- C11, the claim at two states. (1) After initialisation, start and one tick the
animation is active with the 50 ms tick pending; two further calls of
`matrix_start` both return at the `active` guard, so the pending tick is that
50 ms tick and not a zero-delay one scheduled by the first of the two calls.
(2) After initialisation, start and a `matrix_init` with a canvas that has no
buffer, `active` is false and the zero-delay tick is still pending; two calls of
`matrix_stop` both return at the `active` guard and the tick stays pending. -/
theorem lifecycle_guards_keep_scheduler :
    example_ticked.canvas = some 1 ∧ example_ticked.active = true ∧
    matrix_start (matrix_start example_ticked) = example_ticked ∧
    (matrix_start (matrix_start example_ticked)).animation_work.pending = some 50 ∧
    ¬ ((matrix_start (matrix_start example_ticked)).animation_work.pending
        = some K_NO_WAIT) ∧
    example_reinit.active = false ∧
    matrix_stop (matrix_stop example_reinit) = example_reinit ∧
    (matrix_stop (matrix_stop example_reinit)).animation_work.pending = some 0 ∧
    ¬ ((matrix_stop (matrix_stop example_reinit)).animation_work.pending = none) := by
  obtain ⟨h1, h2, h3⟩ := example_ticked_fields
  obtain ⟨r1, r2⟩ := example_reinit_fields
  have hs : matrix_start example_ticked = example_ticked := matrix_start_running _ h2
  have ht : matrix_stop example_reinit = example_reinit := matrix_stop_stopped _ r1
  refine ⟨h1, h2, by rw [hs, hs], by rw [hs, hs, h3], ?_, r1, by rw [ht, ht],
    by rw [ht, ht, r2], ?_⟩
  · rw [hs, hs, h3]
    decide
  · rw [ht, ht, r2]
    decide

/-- C11. Idempotence of the lifecycle operations over the one-slot scheduler. For
every state with the canvas bound, `matrix_start` applied twice gives the same
state as applied once, with `active` true; when the state was not active, the
zero-delay tick scheduled by the first call is the pending tick, and when it was
already active both calls change nothing. For every state, `matrix_stop` applied
twice gives the same state as applied once (the second call changes nothing),
with `active` false; when the state was active no tick is pending, and when it was
already inactive both calls change nothing. -/
theorem lifecycle_idempotent (a : matrix_anim_t) :
    (a.canvas ≠ none →
      matrix_start (matrix_start a) = matrix_start a ∧
      (matrix_start a).active = true ∧
      (a.active = false → (matrix_start a).animation_work.pending = some K_NO_WAIT) ∧
      (a.active = true → matrix_start a = a)) ∧
    (matrix_stop (matrix_stop a) = matrix_stop a ∧
      (matrix_stop a).active = false ∧
      (a.active = true → (matrix_stop a).animation_work.pending = none) ∧
      (a.active = false → matrix_stop a = a)) := by
  constructor
  · intro hcv
    obtain ⟨cv, hcv⟩ := Option.ne_none_iff_exists'.mp hcv
    cases hact : a.active with
    | true =>
      have hs := matrix_start_running a hact
      exact ⟨by rw [hs, hs], by rw [hs, hact], fun h => by simp at h, fun _ => hs⟩
    | false =>
      have hs := matrix_start_stopped a cv hcv hact
      have hact2 : (matrix_start a).active = true := by rw [hs]
      exact ⟨matrix_start_running _ hact2, hact2, fun _ => by rw [hs]; rfl,
        fun h => by simp at h⟩
  · cases hact : a.active with
    | true =>
      have hs := matrix_stop_running a hact
      have hact2 : (matrix_stop a).active = false := by rw [hs]
      exact ⟨matrix_stop_stopped _ hact2, hact2, fun _ => by rw [hs]; rfl,
        fun h => by simp at h⟩
    | false =>
      have hs := matrix_stop_stopped a hact
      exact ⟨by rw [hs, hs], by rw [hs, hact], fun h => by simp at h, fun _ => hs⟩

/-- C12, the code at the failing input. `matrix_init` on a running animation
(canvas 1 and its buffer bound, `active` true) with a canvas that has no buffer
returns at the buffer check after it has already rebound `canvas`, cleared
`canvas_buf` and cleared `active`; only the drops and the work item are as before. -/
theorem init_failure_writes :
    bufferless_canvas.buf = none ∧
    example_running.canvas = some 1 ∧
    example_running.canvas_buf = some (List.replicate 10880 7) ∧
    example_running.active = true ∧
    (matrix_init example_running (some bufferless_canvas) example_rand).1.canvas = some 2 ∧
    (matrix_init example_running (some bufferless_canvas) example_rand).1.canvas_buf = none ∧
    (matrix_init example_running (some bufferless_canvas) example_rand).1.active = false ∧
    (matrix_init example_running (some bufferless_canvas) example_rand).1.drops
      = example_running.drops ∧
    (matrix_init example_running (some bufferless_canvas) example_rand).1.animation_work
      = example_running.animation_work ∧
    (matrix_init example_running (some bufferless_canvas) example_rand).1 ≠ example_running := by
  have h := matrix_init_no_buffer example_running bufferless_canvas example_rand rfl
  refine ⟨rfl, rfl, rfl, rfl, by rw [h]; rfl, by rw [h], by rw [h], by rw [h], by rw [h], ?_⟩
  rw [h]
  intro heq
  have hact : false = true := congrArg matrix_anim_t.active heq
  exact Bool.false_ne_true hact

/-! ## No writes after stop -/

theorem matrix_start_cases (a : matrix_anim_t) :
    matrix_start a = a ∨ (matrix_start a).active = true := by
  unfold matrix_start
  split_ifs
  · exact Or.inl rfl
  · exact Or.inl rfl
  · exact Or.inr rfl

theorem matrix_stop_cases (a : matrix_anim_t) :
    matrix_stop a = a ∨
    ((matrix_stop a).active = false ∧ (matrix_stop a).animation_work.pending = none) := by
  unfold matrix_stop
  split_ifs
  · exact Or.inl rfl
  · exact Or.inr ⟨rfl, rfl⟩

theorem matrix_stop_inactive (a : matrix_anim_t) : (matrix_stop a).active = false := by
  cases hact : a.active with
  | true => rw [matrix_stop_running a hact]
  | false => rw [matrix_stop_stopped a hact, hact]

theorem handler_active_cases (a : matrix_anim_t) (s : Rand) :
    (matrix_animation_work_handler a s).1 = a ∨
    (matrix_animation_work_handler a s).1.active = true := by
  cases hact : a.active with
  | false => exact Or.inl (by rw [handler_guard a s (Or.inl hact)])
  | true =>
    cases hcv : a.canvas with
    | none => exact Or.inl (by rw [handler_guard a s (Or.inr hcv)])
    | some cv => exact Or.inr (handler_run a s cv hact hcv).2.2.2.1

/-- In every state reachable by steps, an inactive animation has no tick pending. -/
theorem scheduled_inactive (a : matrix_anim_t) (h : Scheduled a) :
    a.active = false → a.animation_work.pending = none := by
  induction h with
  | init anim cv buf s _ hbuf =>
    intro _
    rw [(matrix_init_ok_fields anim cv buf s hbuf).2.2.2]
    rfl
  | step a e b _ hstep ih =>
    intro hb
    cases e with
    | start =>
      simp only [step, Option.some.injEq] at hstep
      subst hstep
      rcases matrix_start_cases a with h | h
      · rw [h] at hb ⊢; exact ih hb
      · rw [h] at hb; exact absurd hb (by simp)
    | stop =>
      simp only [step, Option.some.injEq] at hstep
      subst hstep
      rcases matrix_stop_cases a with h | h
      · rw [h] at hb ⊢; exact ih hb
      · exact h.2
    | tick s =>
      simp only [step] at hstep
      split at hstep
      · exact absurd hstep (by simp)
      · simp only [Option.some.injEq] at hstep
        subst hstep
        rcases handler_active_cases
          { a with animation_work := k_work_fire a.animation_work } s with h | h
        · rw [h]; rfl
        · rw [h] at hb; exact absurd hb (by simp)

/-- From an inactive state with no tick pending, steps other than `matrix_start`
change nothing (and no tick can fire). -/
theorem run_inactive (a : matrix_anim_t) (hact : a.active = false)
    (hpend : a.animation_work.pending = none) (evs : List lifecycle_event)
    (b : matrix_anim_t) (hev : ∀ e ∈ evs, e.is_start = false) (hrun : run a evs = some b) :
    b = a := by
  induction evs with
  | nil =>
    simp only [run, Option.some.injEq] at hrun
    exact hrun.symm
  | cons e es ih =>
    have hes : ∀ e ∈ es, e.is_start = false := fun x hx => hev x (List.mem_cons_of_mem _ hx)
    have he := hev e (List.mem_cons_self _ _)
    cases e with
    | start => simp [lifecycle_event.is_start] at he
    | stop =>
      simp only [run, step, matrix_stop_stopped a hact] at hrun
      exact ih hes hrun
    | tick s => simp [run, step, hpend] at hrun

/-- C13. No writes after stop, as an invariant of the step relation (`matrix_start`,
`matrix_stop`, the tick fires only when pending and firing consumes it) on the
states reachable from a successful `matrix_init`: whenever `active` is false no
tick is pending; the state that `matrix_stop` returns is reachable and inactive,
and every sequence of steps from it that has no `matrix_start` leaves the state,
so the pixel buffer and the drops, as `matrix_stop` returned it; and a tick handler
that nevertheless runs while `active` is false changes nothing. -/
theorem no_writes_after_stop (a : matrix_anim_t) (h : Scheduled a) :
    (a.active = false → a.animation_work.pending = none) ∧
    (Scheduled (matrix_stop a) ∧ (matrix_stop a).active = false ∧
      (matrix_stop a).animation_work.pending = none) ∧
    (∀ (evs : List lifecycle_event) (b : matrix_anim_t),
      (∀ e ∈ evs, e.is_start = false) → run (matrix_stop a) evs = some b →
      b = matrix_stop a ∧ b.canvas_buf = (matrix_stop a).canvas_buf ∧
        b.drops = (matrix_stop a).drops) ∧
    (a.active = false → ∀ s, matrix_animation_work_handler a s = (a, s)) := by
  have hsched : Scheduled (matrix_stop a) := Scheduled.step a .stop _ h rfl
  have hact := matrix_stop_inactive a
  have hpend := scheduled_inactive _ hsched hact
  refine ⟨scheduled_inactive a h, ⟨hsched, hact, hpend⟩, ?_, ?_⟩
  · intro evs b hev hrun
    have hb := run_inactive _ hact hpend evs b hev hrun
    exact ⟨hb, by rw [hb], by rw [hb]⟩
  · intro ha s
    exact handler_guard a s (Or.inl ha)

theorem no_writes_after_stop_witness :
    Scheduled example_started ∧
    (example_started.active = false → example_started.animation_work.pending = none) ∧
    (Scheduled (matrix_stop example_started) ∧ (matrix_stop example_started).active = false ∧
      (matrix_stop example_started).animation_work.pending = none) ∧
    (∀ (evs : List lifecycle_event) (b : matrix_anim_t),
      (∀ e ∈ evs, e.is_start = false) → run (matrix_stop example_started) evs = some b →
      b = matrix_stop example_started ∧
        b.canvas_buf = (matrix_stop example_started).canvas_buf ∧
        b.drops = (matrix_stop example_started).drops) ∧
    (example_started.active = false →
      ∀ s, matrix_animation_work_handler example_started s = (example_started, s)) :=
  have hs : Scheduled example_started :=
    Scheduled.step _ .start _
      (Scheduled.init example_anim example_canvas (List.replicate 10880 7) example_rand
        (List.length_replicate 200 default) rfl) rfl
  ⟨hs, no_writes_after_stop example_started hs⟩

/-! ## Head coordinates: truncation towards zero -/

/-- The head write of `matrix_draw` is at `(x_int, y_int)`. -/
theorem head_write_mem (d : matrix_drop_t) (h : in_bounds (x_int d) (y_int d) = true) :
    ({ x := x_int d, y := y_int d, color := lv_color_white } : px_write) ∈ drop_writes d := by
  unfold x_int y_int at h
  simp only [drop_writes, x_int, y_int, List.mem_append, h, if_true, List.mem_singleton,
    or_true]

theorem tdiv16_trunc (v : Int) :
    (0 ≤ v → Int.tdiv v 16 = Int.fdiv v 16) ∧
    (v < 0 → Int.tdiv v 16 = -(Int.fdiv (-v) 16)) ∧
    (Int.tdiv v 16 = Int.fdiv v 16 ↔ (0 ≤ v ∨ v % 16 = 0)) := by
  rw [Int.fdiv_eq_ediv v (by decide), Int.fdiv_eq_ediv (-v) (by decide)]
  rcases tdiv16_cases v with ⟨h0, h1⟩ | ⟨h0, h1⟩
  · refine ⟨fun _ => h1, fun h => by omega, ?_⟩
    constructor
    · intro _; exact Or.inl h0
    · intro _; exact h1
  · refine ⟨fun h => by omega, fun _ => h1, ?_⟩
    constructor
    · intro h; right; omega
    · intro h; omega

/-- C14, the claim at a negative position. For the drop with `y = -8` (half a pixel
above the top edge) the head row that `matrix_draw` uses is `0`, and the head is
drawn in row 0 of the grid, while the floor of `-8 / 16` is `-1`. -/
theorem head_row_not_floor :
    entering_drop.inRange ∧ entering_drop.y = -8 ∧
    y_int entering_drop = 0 ∧ Int.fdiv entering_drop.y 16 = -1 ∧
    ⌊((-8 : ℚ) / 16)⌋ = -1 ∧
    y_int entering_drop ≠ Int.fdiv entering_drop.y 16 ∧
    ({ x := 10, y := 0, color := lv_color_white } : px_write) ∈ drop_writes entering_drop := by
  refine ⟨by decide, rfl, by decide, by decide, ?_, by decide, by decide⟩
  rw [Int.floor_eq_iff]
  norm_num

/-- C14. Head coordinates are the fixed-point value divided by 16 and truncated
towards zero: for every drop with fields in the ranges of their C types, the head
column and head row that `matrix_draw` uses are `x / 16` and `y / 16` in C division.
That is the floor `⌊v / 16⌋` for a non-negative value `v`, and `-⌊-v / 16⌋` for a
negative one; it equals the floor exactly when `v` is non-negative or a multiple
of 16. -/
theorem head_coords_truncate (d : matrix_drop_t) (h : d.inRange) :
    (x_int d = Int.tdiv d.x 16 ∧ y_int d = Int.tdiv d.y 16) ∧
    ((0 ≤ d.x → x_int d = Int.fdiv d.x 16) ∧ (0 ≤ d.y → y_int d = Int.fdiv d.y 16)) ∧
    ((d.x < 0 → x_int d = -(Int.fdiv (-d.x) 16)) ∧
      (d.y < 0 → y_int d = -(Int.fdiv (-d.y) 16))) ∧
    ((x_int d = Int.fdiv d.x 16 ↔ (0 ≤ d.x ∨ d.x % 16 = 0)) ∧
      (y_int d = Int.fdiv d.y 16 ↔ (0 ≤ d.y ∨ d.y % 16 = 0))) := by
  have hx : x_int d = Int.tdiv d.x 16 := head_col_of_inRange h
  have hy : y_int d = Int.tdiv d.y 16 := (head_row_of_inRange h).1
  rw [hx, hy]
  obtain ⟨x1, x2, x3⟩ := tdiv16_trunc d.x
  obtain ⟨y1, y2, y3⟩ := tdiv16_trunc d.y
  exact ⟨⟨rfl, rfl⟩, ⟨x1, y1⟩, ⟨x2, y2⟩, ⟨x3, y3⟩⟩

theorem head_coords_truncate_witness :
    entering_drop.inRange ∧
    (x_int entering_drop = Int.tdiv entering_drop.x 16 ∧
      y_int entering_drop = Int.tdiv entering_drop.y 16) ∧
    ((0 ≤ entering_drop.x → x_int entering_drop = Int.fdiv entering_drop.x 16) ∧
      (0 ≤ entering_drop.y → y_int entering_drop = Int.fdiv entering_drop.y 16)) ∧
    ((entering_drop.x < 0 → x_int entering_drop = -(Int.fdiv (-entering_drop.x) 16)) ∧
      (entering_drop.y < 0 → y_int entering_drop = -(Int.fdiv (-entering_drop.y) 16))) ∧
    ((x_int entering_drop = Int.fdiv entering_drop.x 16 ↔
        (0 ≤ entering_drop.x ∨ entering_drop.x % 16 = 0)) ∧
      (y_int entering_drop = Int.fdiv entering_drop.y 16 ↔
        (0 ≤ entering_drop.y ∨ entering_drop.y % 16 = 0))) :=
  ⟨by decide, head_coords_truncate entering_drop (by decide)⟩

/-! ## The recycling threshold -/

/-- C15, the claim at a drop whose trail has just left the screen. After adding
`speed` the late drop has head row 169 and topmost trail row `169 - 9 = 160`, so
every pixel of its trail is below the bottom edge; `matrix_update_positions` only
advances it, to `y = 2704`, and does not reinitialise it (a reinitialised drop is
never this drop). -/
theorem trail_gone_not_recycled :
    1 ≤ late_drop.length ∧ isInt16 (late_drop.y + late_drop.speed) ∧
    Int.tdiv (late_drop.y + late_drop.speed) 16 - ((late_drop.length : Int) - 1) = 160 ∧
    example_late.drops.length = MATRIX_MAX_DROPS ∧
    example_late.drops[0]? = some late_drop ∧
    (matrix_update_positions example_late example_rand).1.drops[0]?
      = some { late_drop with y := 2704 } ∧
    ∀ s : Rand, (init_single_drop late_drop s).1 ≠ { late_drop with y := 2704 } := by
  have hlen : example_late.drops.length = MATRIX_MAX_DROPS := by
    simp only [example_late, List.length_cons, List.length_replicate, MATRIX_MAX_DROPS]
  refine ⟨by decide, by decide, by decide, hlen, ?_, ?_, ?_⟩
  · simp only [example_late, List.getElem?_cons_zero]
  · rw [matrix_update_positions_drops _ _ hlen]
    simp only [example_late]
    rw [map_drops_head, update_drop_eq _ _ (by decide)]
    decide
  · intro s heq
    obtain ⟨_, ⟨m, _, hm⟩, _⟩ := init_single_drop_fresh late_drop s
    rw [heq] at hm
    simp only at hm
    omega

/-- C15. The recycling threshold of `matrix_update_positions` in terms of the topmost
trail row `top = y' / 16 - (length - 1)` after adding `speed` (C division, `y'`
within `int16_t`), on a state of 200 drops: when `top ≥ MATRIX_HEIGHT + 2 = 162`
(that is `y' / 16 - length > MATRIX_HEIGHT`) the drop is reinitialised in that same
call, and when `top ≤ 161` it is only advanced. -/
theorem recycle_threshold (anim : matrix_anim_t) (s : Rand) (i : Nat)
    (hlen : anim.drops.length = MATRIX_MAX_DROPS) (hi : i < anim.drops.length)
    (hfit : isInt16 (anim.drops[i].y + anim.drops[i].speed)) :
    (MATRIX_HEIGHT + 2 ≤ Int.tdiv (anim.drops[i].y + anim.drops[i].speed) FIXED_POINT_SCALE
        - ((anim.drops[i].length : Int) - 1) →
      ∃ k, (matrix_update_positions anim s).1.drops[i]? =
        some (init_single_drop anim.drops[i] (Rand.skip k s)).1) ∧
    (Int.tdiv (anim.drops[i].y + anim.drops[i].speed) FIXED_POINT_SCALE
        - ((anim.drops[i].length : Int) - 1) ≤ MATRIX_HEIGHT + 1 →
      (matrix_update_positions anim s).1.drops[i]? =
        some { anim.drops[i] with y := anim.drops[i].y + anim.drops[i].speed }) := by
  rw [matrix_update_positions_drops anim s hlen]
  obtain ⟨k, hk⟩ := map_drops_getElem update_drop update_drop_rand anim.drops s i hi
  rw [update_drop_eq _ _ hfit] at hk
  simp only [FIXED_POINT_SCALE, MATRIX_HEIGHT, Nat.cast_ofNat]
  constructor
  · intro htop
    have hcond : Int.tdiv (anim.drops[i].y + anim.drops[i].speed) 16
        - anim.drops[i].length > 160 := by omega
    rw [if_pos hcond] at hk
    exact ⟨k, hk⟩
  · intro htop
    have hcond : ¬ (Int.tdiv (anim.drops[i].y + anim.drops[i].speed) 16
        - anim.drops[i].length > 160) := by omega
    rw [if_neg hcond] at hk
    exact hk

theorem recycle_threshold_witness :
    (example_late.drops.length = MATRIX_MAX_DROPS ∧
      isInt16 (late_drop.y + late_drop.speed)) ∧
    (MATRIX_HEIGHT + 2 ≤ Int.tdiv (late_drop.y + late_drop.speed) FIXED_POINT_SCALE
        - ((late_drop.length : Int) - 1) →
      ∃ k, (matrix_update_positions example_late example_rand).1.drops[0]? =
        some (init_single_drop late_drop (Rand.skip k example_rand)).1) ∧
    (Int.tdiv (late_drop.y + late_drop.speed) FIXED_POINT_SCALE
        - ((late_drop.length : Int) - 1) ≤ MATRIX_HEIGHT + 1 →
      (matrix_update_positions example_late example_rand).1.drops[0]? =
        some { late_drop with y := late_drop.y + late_drop.speed }) :=
  have hlen : example_late.drops.length = MATRIX_MAX_DROPS := by
    simp only [example_late, List.length_cons, List.length_replicate, MATRIX_MAX_DROPS]
  ⟨⟨hlen, by decide⟩,
    recycle_threshold example_late example_rand 0 hlen
      (by simp only [example_late, List.length_cons, List.length_replicate]; omega)
      (by decide)⟩

/-! ## Bounded vertical position -/

theorem update_drop_bounded (d : matrix_drop_t) (s : Rand)
    (h : (-1280 ≤ d.y ∧ d.y ≤ 3215) ∧ (8 ≤ d.speed ∧ d.speed ≤ 16) ∧
      (5 ≤ d.length ∧ d.length ≤ 40)) :
    (-1280 ≤ (update_drop d s).1.y ∧ (update_drop d s).1.y ≤ 3215) ∧
    (8 ≤ (update_drop d s).1.speed ∧ (update_drop d s).1.speed ≤ 16) ∧
    (5 ≤ (update_drop d s).1.length ∧ (update_drop d s).1.length ≤ 40) := by
  obtain ⟨⟨hy1, hy2⟩, ⟨hs1, hs2⟩, ⟨hl1, hl2⟩⟩ := h
  have hfit : isInt16 (d.y + d.speed) := by unfold isInt16; omega
  rw [update_drop_eq d s hfit]
  by_cases hcond : Int.tdiv (d.y + d.speed) 16 - d.length > 160
  · rw [if_pos hcond]
    obtain ⟨_, ⟨m, hm, hy⟩, hsp, _, hln⟩ := init_single_drop_fresh d s
    simp only [MATRIX_HEIGHT, MATRIX_MIN_TRAIL_LENGTH, MATRIX_MAX_TRAIL_LENGTH] at hm hln
    exact ⟨by omega, hsp, hln⟩
  · rw [if_neg hcond]
    refine ⟨?_, ⟨hs1, hs2⟩, ⟨hl1, hl2⟩⟩
    simp only
    rcases tdiv16_cases (d.y + d.speed) with ⟨h0, h1⟩ | ⟨h0, h1⟩ <;> omega

/-- C19. Bounded vertical position: in every state reachable from a successful
`matrix_init` by `matrix_start`, `matrix_stop` and tick handler executions, with any
outputs of the random source, every one of the 200 drops satisfies
`-1280 ≤ y ≤ 3215`, `8 ≤ speed ≤ 16` and `5 ≤ length ≤ 40`; hence `y + speed` is
within `int16_t` and the 16 bit addition `drop->y += drop->speed` does not wrap. -/
theorem y_bounded (a : matrix_anim_t) (h : Reachable a) :
    a.drops.length = MATRIX_MAX_DROPS ∧
    ∀ d ∈ a.drops,
      (-(((MATRIX_HEIGHT / 2 : Nat) : Int) * 16) ≤ d.y ∧
        d.y < (((MATRIX_HEIGHT + MATRIX_MAX_TRAIL_LENGTH + 1 : Nat) : Int)) * 16) ∧
      (-1280 ≤ d.y ∧ d.y ≤ 3215) ∧ (8 ≤ d.speed ∧ d.speed ≤ 16) ∧
      (5 ≤ d.length ∧ d.length ≤ 40) ∧
      isInt16 (d.y + d.speed) ∧ toInt16 (d.y + d.speed) = d.y + d.speed := by
  have hinv := reachable_drops
    (fun d => (-1280 ≤ d.y ∧ d.y ≤ 3215) ∧ (8 ≤ d.speed ∧ d.speed ≤ 16) ∧
      (5 ≤ d.length ∧ d.length ≤ 40))
    (fun d s => by
      obtain ⟨_, ⟨m, hm, hy⟩, hsp, _, hln⟩ := init_single_drop_fresh d s
      simp only [MATRIX_HEIGHT, MATRIX_MIN_TRAIL_LENGTH, MATRIX_MAX_TRAIL_LENGTH] at hm hln
      exact ⟨by omega, hsp, hln⟩)
    (fun d s hd => update_drop_bounded d s hd)
    a h
  refine ⟨hinv.1, fun d hd => ?_⟩
  obtain ⟨⟨hy1, hy2⟩, ⟨hs1, hs2⟩, hl⟩ := hinv.2 d hd
  have hfit : isInt16 (d.y + d.speed) := by unfold isInt16; omega
  refine ⟨?_, ⟨hy1, hy2⟩, ⟨hs1, hs2⟩, hl, hfit, toInt16_of_isInt16 hfit⟩
  simp only [MATRIX_HEIGHT, MATRIX_MAX_TRAIL_LENGTH]
  omega

theorem y_bounded_witness :
    Reachable example_ticked ∧
    example_ticked.drops.length = MATRIX_MAX_DROPS ∧
    ∀ d ∈ example_ticked.drops,
      (-(((MATRIX_HEIGHT / 2 : Nat) : Int) * 16) ≤ d.y ∧
        d.y < (((MATRIX_HEIGHT + MATRIX_MAX_TRAIL_LENGTH + 1 : Nat) : Int)) * 16) ∧
      (-1280 ≤ d.y ∧ d.y ≤ 3215) ∧ (8 ≤ d.speed ∧ d.speed ≤ 16) ∧
      (5 ≤ d.length ∧ d.length ≤ 40) ∧
      isInt16 (d.y + d.speed) ∧ toInt16 (d.y + d.speed) = d.y + d.speed :=
  have hr : Reachable example_ticked :=
    Reachable.tick _ example_rand (Reachable.start _
      (Reachable.init example_anim example_canvas (List.replicate 10880 7) example_rand
        (List.length_replicate 200 default) rfl))
  ⟨hr, y_bounded example_ticked hr⟩

/-! ## Recycling removes nothing visible -/

theorem drop_writes_below (d : matrix_drop_t) (hy : isInt16 d.y)
    (hrec : Int.tdiv d.y 16 - d.length > 160) : drop_writes d = [] := by
  have hrow : toInt16 (Int.tdiv d.y FIXED_POINT_SCALE) = Int.tdiv d.y 16 := by
    simp only [FIXED_POINT_SCALE, Nat.cast_ofNat]
    apply toInt16_of_isInt16
    unfold isInt16 at hy ⊢
    rcases tdiv16_cases d.y with ⟨h0, h1⟩ | ⟨h0, h1⟩ <;> omega
  have hhi : Int.tdiv d.y 16 ≤ 2047 := by
    unfold isInt16 at hy
    rcases tdiv16_cases d.y with ⟨h0, h1⟩ | ⟨h0, h1⟩ <;> omega
  apply List.eq_nil_iff_forall_not_mem.mpr
  intro w hw
  simp only [drop_writes, hrow, List.mem_append, List.mem_filterMap, List.mem_range] at hw
  rcases hw with ⟨idx, hidx, hsome⟩ | hhead
  · have hwrap : toInt16 (Int.tdiv d.y 16 - (idx : Int)) = Int.tdiv d.y 16 - idx :=
      toInt16_of_isInt16 (by unfold isInt16; omega)
    rw [hwrap] at hsome
    split_ifs at hsome with hb
    rw [in_bounds_iff] at hb
    simp only [MATRIX_HEIGHT, Nat.cast_ofNat] at hb
    omega
  · split_ifs at hhead with hb
    · rw [in_bounds_iff] at hb
      simp only [MATRIX_HEIGHT, Nat.cast_ofNat] at hb
      omega
    · simp at hhead

/-- C20. Recycling never removes anything visible: on a state of 200 drops, for every
index `i` whose drop `d` (any length, 0 included) has `y' = d.y + d.speed` within
`int16_t`, if the recycling test `y' / 16 - length > MATRIX_HEIGHT` holds, so that
`matrix_update_positions` reinitialises the drop, then at the advanced position the
head row `y' / 16` and every trail row `y' / 16 - j` for `0 ≤ j < length` are at
least `MATRIX_HEIGHT`, and `matrix_draw` would have issued no pixel write for it. -/
theorem recycle_invisible (anim : matrix_anim_t) (s : Rand) (i : Nat)
    (hlen : anim.drops.length = MATRIX_MAX_DROPS) (hi : i < anim.drops.length)
    (hfit : isInt16 (anim.drops[i].y + anim.drops[i].speed))
    (hrec : Int.tdiv (anim.drops[i].y + anim.drops[i].speed) FIXED_POINT_SCALE
      - anim.drops[i].length > MATRIX_HEIGHT) :
    (∃ k, (matrix_update_positions anim s).1.drops[i]? =
      some (init_single_drop anim.drops[i] (Rand.skip k s)).1) ∧
    (MATRIX_HEIGHT : Int)
      ≤ Int.tdiv (anim.drops[i].y + anim.drops[i].speed) FIXED_POINT_SCALE ∧
    (∀ j : Nat, j < anim.drops[i].length → (MATRIX_HEIGHT : Int)
      ≤ Int.tdiv (anim.drops[i].y + anim.drops[i].speed) FIXED_POINT_SCALE - j) ∧
    drop_writes { anim.drops[i] with y := anim.drops[i].y + anim.drops[i].speed } = [] := by
  simp only [FIXED_POINT_SCALE, MATRIX_HEIGHT, Nat.cast_ofNat] at hrec ⊢
  refine ⟨?_, by omega, fun j hj => by omega, drop_writes_below _ hfit hrec⟩
  rw [matrix_update_positions_drops anim s hlen]
  obtain ⟨k, hk⟩ := map_drops_getElem update_drop update_drop_rand anim.drops s i hi
  rw [update_drop_eq _ _ hfit, if_pos hrec] at hk
  exact ⟨k, hk⟩

theorem recycle_invisible_witness :
    (example_running.drops.length = MATRIX_MAX_DROPS ∧
      isInt16 (low_drop.y + low_drop.speed) ∧
      Int.tdiv (low_drop.y + low_drop.speed) FIXED_POINT_SCALE - low_drop.length
        > MATRIX_HEIGHT) ∧
    (∃ k, (matrix_update_positions example_running example_rand).1.drops[1]? =
      some (init_single_drop low_drop (Rand.skip k example_rand)).1) ∧
    (MATRIX_HEIGHT : Int) ≤ Int.tdiv (low_drop.y + low_drop.speed) FIXED_POINT_SCALE ∧
    (∀ j : Nat, j < low_drop.length → (MATRIX_HEIGHT : Int)
      ≤ Int.tdiv (low_drop.y + low_drop.speed) FIXED_POINT_SCALE - j) ∧
    drop_writes { low_drop with y := low_drop.y + low_drop.speed } = [] :=
  have hlen : example_running.drops.length = MATRIX_MAX_DROPS := by
    simp only [example_running, List.length_cons, List.length_replicate, MATRIX_MAX_DROPS]
  ⟨⟨hlen, by decide, by decide⟩,
    recycle_invisible example_running example_rand 1 hlen
      (by simp only [example_running, List.length_cons, List.length_replicate]; omega)
      (by decide) (by decide)⟩

/-! ## The brightness class is not read -/

theorem drop_writes_forget_bright (d : matrix_drop_t) :
    drop_writes (forget_bright d) = drop_writes d := by
  simp only [drop_writes, forget_bright]

theorem writes_of_forget_bright (l : List matrix_drop_t) :
    writes_of (l.map forget_bright) = writes_of l := by
  induction l with
  | nil => rfl
  | cons d ds ih => simp only [List.map_cons, writes_of, ih, drop_writes_forget_bright]

theorem draw_writes_forget_bright (l l' : List matrix_drop_t)
    (h : l'.map forget_bright = l.map forget_bright) : draw_writes l' = draw_writes l := by
  rw [draw_writes_eq, draw_writes_eq, ← writes_of_forget_bright (l'.take _),
    ← writes_of_forget_bright (l.take _), List.map_take, List.map_take, h]

theorem update_drop_forget_bright (d : matrix_drop_t) (s : Rand) :
    forget_bright (update_drop (forget_bright d) s).1 = forget_bright (update_drop d s).1 ∧
    (update_drop (forget_bright d) s).2 = (update_drop d s).2 := by
  simp only [update_drop, off_screen_below, forget_bright]
  split_ifs
  · simp only [init_single_drop, and_self]
  · exact ⟨rfl, rfl⟩

theorem map_drops_forget_bright (l : List matrix_drop_t) (s : Rand) :
    (map_drops update_drop (l.map forget_bright) s).1.map forget_bright
      = (map_drops update_drop l s).1.map forget_bright ∧
    (map_drops update_drop (l.map forget_bright) s).2 = (map_drops update_drop l s).2 := by
  induction l generalizing s with
  | nil => exact ⟨rfl, rfl⟩
  | cons d ds ih =>
    obtain ⟨h1, h2⟩ := update_drop_forget_bright d s
    simp only [List.map_cons, map_drops, h2]
    obtain ⟨i1, i2⟩ := ih (update_drop d s).2
    exact ⟨by rw [h1, i1], i2⟩

theorem forget_bright_idem (d : matrix_drop_t) :
    forget_bright (forget_bright d) = forget_bright d := rfl

theorem map_drops_agree (l l' : List matrix_drop_t) (s : Rand)
    (h : l'.map forget_bright = l.map forget_bright) :
    (map_drops update_drop l' s).1.map forget_bright
      = (map_drops update_drop l s).1.map forget_bright ∧
    (map_drops update_drop l' s).2 = (map_drops update_drop l s).2 := by
  obtain ⟨a1, a2⟩ := map_drops_forget_bright l s
  obtain ⟨b1, b2⟩ := map_drops_forget_bright l' s
  rw [← a1, ← a2, ← b1, ← b2, h]
  exact ⟨rfl, rfl⟩

/-- C18. The brightness class influences neither rendering nor motion: for every two
states of 200 drops with the same canvas and buffer whose drops agree on `x`, `y`,
`speed` and `length` (equal once `bright` is blanked), `matrix_draw` leaves
identical pixel buffers, and `matrix_update_positions`, given the same random
source, leaves drops that again agree on `x`, `y`, `speed` and `length`, and the
same random source. -/
theorem bright_unused (anim anim' : matrix_anim_t) (s : Rand)
    (hlen : anim.drops.length = MATRIX_MAX_DROPS)
    (hcv : anim'.canvas = anim.canvas) (hbuf : anim'.canvas_buf = anim.canvas_buf)
    (hdrops : anim'.drops.map forget_bright = anim.drops.map forget_bright) :
    (matrix_draw anim').canvas_buf = (matrix_draw anim).canvas_buf ∧
    (matrix_update_positions anim' s).1.drops.map forget_bright
      = (matrix_update_positions anim s).1.drops.map forget_bright ∧
    (matrix_update_positions anim' s).2 = (matrix_update_positions anim s).2 := by
  have hlen' : anim'.drops.length = MATRIX_MAX_DROPS := by
    have := congrArg List.length hdrops
    simp only [List.length_map] at this
    rw [this, hlen]
  refine ⟨?_, ?_, ?_⟩
  · have hw := draw_writes_forget_bright anim.drops anim'.drops hdrops
    cases hc : anim.canvas with
    | none => simp only [matrix_draw, hcv, hbuf, hc]
    | some cv =>
      cases hb : anim.canvas_buf with
      | none => simp only [matrix_draw, hcv, hbuf, hc, hb]
      | some buf => simp only [matrix_draw, hcv, hbuf, hc, hb, hw]
  · rw [matrix_update_positions_drops anim' s hlen', matrix_update_positions_drops anim s hlen]
    exact (map_drops_agree anim.drops anim'.drops s hdrops).1
  · simp only [matrix_update_positions]
    rw [for_each_drop_eq _ _ _ hlen', for_each_drop_eq _ _ _ hlen]
    exact (map_drops_agree anim.drops anim'.drops s hdrops).2

theorem bright_unused_witness :
    (example_running.drops.length = MATRIX_MAX_DROPS ∧
      example_running_bright.canvas = example_running.canvas ∧
      example_running_bright.canvas_buf = example_running.canvas_buf ∧
      example_running_bright.drops.map forget_bright
        = example_running.drops.map forget_bright) ∧
    (matrix_draw example_running_bright).canvas_buf = (matrix_draw example_running).canvas_buf ∧
    (matrix_update_positions example_running_bright example_rand).1.drops.map forget_bright
      = (matrix_update_positions example_running example_rand).1.drops.map forget_bright ∧
    (matrix_update_positions example_running_bright example_rand).2
      = (matrix_update_positions example_running example_rand).2 :=
  have hlen : example_running.drops.length = MATRIX_MAX_DROPS := by
    simp only [example_running, List.length_cons, List.length_replicate, MATRIX_MAX_DROPS]
  have hdrops : example_running_bright.drops.map forget_bright
      = example_running.drops.map forget_bright := by
    simp only [example_running_bright, List.map_map]
    rfl
  ⟨⟨hlen, rfl, rfl, hdrops⟩,
    bright_unused example_running example_running_bright example_rand hlen rfl rfl hdrops⟩

/-! ## Heads in the finished frame -/

theorem foldl_selected_const {α β : Type} (P : α → Prop) [DecidablePred P] (f : α → β)
    (l : List α) (v : β) (h : ∀ e ∈ l, P e → f e = v) :
    l.foldl (fun acc d => if P d then f d else acc) v = v := by
  induction l with
  | nil => rfl
  | cons d ds ih =>
    rw [List.foldl_cons]
    have hd : (if P d then f d else v) = v := by
      split_ifs with hp
      · exact h d (List.mem_cons_self _ _) hp
      · rfl
    rw [hd]
    exact ih (fun e he => h e (List.mem_cons_of_mem _ he))

theorem foldl_selected_value {α β : Type} (P : α → Prop) [DecidablePred P] (f : α → β)
    (l : List α) (init v : β) (i : Nat) (hi : i < l.length) (hP : P l[i])
    (hv : f l[i] = v)
    (hlater : ∀ j (hj : j < l.length), i < j → P l[j] → f l[j] = v) :
    l.foldl (fun acc d => if P d then f d else acc) init = v := by
  induction l generalizing init i with
  | nil => simp at hi
  | cons d ds ih =>
    rw [List.foldl_cons]
    cases i with
    | zero =>
      simp only [List.getElem_cons_zero] at hP hv
      rw [if_pos hP, hv]
      apply foldl_selected_const
      intro e he hpe
      obtain ⟨j, hj, rfl⟩ := List.getElem_of_mem he
      exact hlater (j + 1) (by simpa using hj) (by omega) hpe
    | succ i =>
      simp only [List.getElem_cons_succ] at hP hv
      apply ih _ i (by simpa using hi) hP hv
      intro j hj hij hpj
      exact hlater (j + 1) (by simpa using hj) (by omega) hpj

/-- The pixel of the frame that `matrix_draw` leaves, as the colour of the last drop
that covers it. -/
theorem matrix_draw_px (anim : matrix_anim_t) (cv : Nat) (buf : List lv_color_t)
    (hcv : anim.canvas = some cv) (hbuf : anim.canvas_buf = some buf)
    (hlen : anim.drops.length = MATRIX_MAX_DROPS)
    (hsize : MATRIX_WIDTH * MATRIX_HEIGHT ≤ buf.length)
    (hrange : ∀ d ∈ anim.drops, d.inRange) :
    ∃ out, (matrix_draw anim).canvas_buf = some out ∧
      ∀ c r, c < MATRIX_WIDTH → r < MATRIX_HEIGHT →
        get_px out c r =
          anim.drops.foldl (fun acc d => if covers d c r then covered_color d r else acc) 0 := by
  refine ⟨_, matrix_draw_bound anim cv buf hcv hbuf (by omega), fun c r hc hr => ?_⟩
  rw [get_px_writes_of anim.drops (memset_frame buf) c r hrange hc hr
    (by rw [length_memset_frame]; exact hsize), get_px_memset_frame buf c r hc hr hsize]

/-- C16, the claim at two drops in one lane. In the state with the example drop
(head at column 10, row 50, inside the grid) at index 0 and a drop with head row
55 and trail rows 46..55 in the same lane at index 1, `matrix_draw` leaves the
pixel at the head position of drop 0 in the mid tier (light gray) that the trail of
drop 1 paints there, not in white. -/
theorem head_overdrawn :
    example_overlap.canvas = some 1 ∧
    example_overlap.drops[0]? = some example_drop ∧
    head_col example_drop = 10 ∧ head_row example_drop = 50 ∧
    ∃ out, (matrix_draw example_overlap).canvas_buf = some out ∧
      get_px out 10 50 = lv_color_hex 0xAAAAAA ∧ get_px out 10 50 ≠ lv_color_white := by
  have hlen : example_overlap.drops.length = MATRIX_MAX_DROPS := by
    simp only [example_overlap, List.length_cons, List.length_replicate, MATRIX_MAX_DROPS]
  have hsize : MATRIX_WIDTH * MATRIX_HEIGHT ≤ (List.replicate 10880 (7 : lv_color_t)).length := by
    rw [List.length_replicate]; decide
  have hrange : ∀ d ∈ example_overlap.drops, d.inRange := by
    intro d hd
    simp only [example_overlap, List.mem_cons, List.mem_replicate] at hd
    rcases hd with rfl | rfl | ⟨_, rfl⟩ <;> decide
  obtain ⟨out, hout, hpx⟩ :=
    matrix_draw_px example_overlap 1 (List.replicate 10880 7) rfl rfl hlen hsize hrange
  have hval : get_px out 10 50 = lv_color_hex 0xAAAAAA := by
    rw [hpx 10 50 (by decide) (by decide)]
    have h := foldl_last_selected (fun d => covers d 10 50) (fun d => covered_color d 50)
      example_overlap.drops 0 1 (by rw [hlen]; decide)
      (by simp only [example_overlap, List.getElem_cons_succ, List.getElem_cons_zero]; decide)
      (by
        intro j hj hij
        cases j with
        | zero => omega
        | succ j =>
          cases j with
          | zero => omega
          | succ j =>
            simp only [example_overlap, List.getElem_cons_succ, List.getElem_replicate]
            exact not_covers_hidden_drop 10 50)
    rw [h]
    simp only [example_overlap, List.getElem_cons_succ, List.getElem_cons_zero]
    decide
  refine ⟨rfl, ?_, by decide, by decide, out, hout, hval, ?_⟩
  · simp only [example_overlap, List.getElem?_cons_zero]
  · rw [hval]; decide

/-- C16. Heads in the finished frame: for every state with canvas and buffer bound
(200 drops with fields in the ranges of their C types, a buffer with one element for
each grid pixel), after `matrix_draw` returns, for every drop whose head lies inside
the grid, the pixel at that head position is white provided every drop of higher
index that covers the position gives it white, in particular when no drop of higher
index covers it. -/
theorem head_brightest (anim : matrix_anim_t) (cv : Nat) (buf : List lv_color_t)
    (hcv : anim.canvas = some cv) (hbuf : anim.canvas_buf = some buf)
    (hlen : anim.drops.length = MATRIX_MAX_DROPS)
    (hsize : MATRIX_WIDTH * MATRIX_HEIGHT ≤ buf.length)
    (hrange : ∀ d ∈ anim.drops, d.inRange) :
    ∃ out, (matrix_draw anim).canvas_buf = some out ∧
      ∀ (i : Nat) (hi : i < anim.drops.length) (c r : Nat),
        c < MATRIX_WIDTH → r < MATRIX_HEIGHT →
        (c : Int) = head_col anim.drops[i] → (r : Int) = head_row anim.drops[i] →
        (∀ j (hj : j < anim.drops.length), i < j → covers anim.drops[j] c r →
          covered_color anim.drops[j] r = lv_color_white) →
        get_px out c r = lv_color_white := by
  obtain ⟨out, hout, hpx⟩ := matrix_draw_px anim cv buf hcv hbuf hlen hsize hrange
  refine ⟨out, hout, fun i hi c r hc hr hcol hrow hlater => ?_⟩
  rw [hpx c r hc hr]
  apply foldl_selected_value (fun d => covers d c r) (fun d => covered_color d r)
    anim.drops 0 lv_color_white i hi ⟨hcol, Or.inl hrow⟩
  · simp only [covered_color, hrow, if_true]
  · exact hlater

theorem head_brightest_witness :
    (example_scene.canvas = some 1 ∧
      example_scene.canvas_buf = some (List.replicate 10880 7) ∧
      example_scene.drops.length = MATRIX_MAX_DROPS ∧
      MATRIX_WIDTH * MATRIX_HEIGHT ≤ (List.replicate 10880 (7 : lv_color_t)).length ∧
      ∀ d ∈ example_scene.drops, d.inRange) ∧
    ∃ out, (matrix_draw example_scene).canvas_buf = some out ∧
      get_px out 10 50 = lv_color_white := by
  have hlen : example_scene.drops.length = MATRIX_MAX_DROPS := by
    simp only [example_scene, List.length_cons, List.length_replicate, MATRIX_MAX_DROPS]
  have hsize : MATRIX_WIDTH * MATRIX_HEIGHT ≤ (List.replicate 10880 (7 : lv_color_t)).length := by
    rw [List.length_replicate]; decide
  have hrange : ∀ d ∈ example_scene.drops, d.inRange := by
    intro d hd
    simp only [example_scene, List.mem_cons, List.mem_replicate] at hd
    rcases hd with rfl | ⟨_, rfl⟩ <;> decide
  refine ⟨⟨rfl, rfl, hlen, hsize, hrange⟩, ?_⟩
  obtain ⟨out, hout, hpx⟩ :=
    head_brightest example_scene 1 (List.replicate 10880 7) rfl rfl hlen hsize hrange
  refine ⟨out, hout, ?_⟩
  apply hpx 0 (by rw [hlen]; decide) 10 50 (by decide) (by decide)
  · simp only [example_scene, List.getElem_cons_zero]; decide
  · simp only [example_scene, List.getElem_cons_zero]; decide
  · intro j hj hij hcov
    cases j with
    | zero => omega
    | succ j =>
      simp only [example_scene, List.getElem_cons_succ, List.getElem_replicate] at hcov
      exact absurd hcov (not_covers_hidden_drop 10 50)

/-! ## The clear and the buffer of the widget -/

/-- C17, the code at the widget's own buffer. The clear of `matrix_draw` zeroes
`68 * 160 = 10880` elements of type `lv_color_t`; the canvas buffer that the widget
allocates and binds has `LV_CANVAS_BUF_SIZE_INDEXED_1BIT(68, 160) = 1448` elements;
the clear is larger than the buffer, by 9432 elements. -/
theorem clear_exceeds_widget_buffer :
    memset_elements = 10880 ∧ widget_canvas_buf_len = 1448 ∧
    lv_canvas_get_buf widget_canvas = some (List.replicate widget_canvas_buf_len 0) ∧
    (List.replicate widget_canvas_buf_len (0 : lv_color_t)).length = 1448 ∧
    ¬ (memset_elements ≤ widget_canvas_buf_len) ∧
    memset_elements - widget_canvas_buf_len = 9432 := by
  refine ⟨by decide, by decide, rfl, ?_, by decide, by decide⟩
  rw [List.length_replicate]
  decide

end Matrix
